import Mathlib

/-!
Verification of the OpenGCodeGen toolpath generation core (`generator.js`,
class `GCodeGenerator`).  The JavaScript source is shallowly embedded:
machine numbers become `ℚ`, emitted G-code lines become a structured
inductive `Line` carrying the exact values the source would format, and the
two `while` loops of the source (depth passes, facing rows) become fueled
recursions returning `Option`, with `none` modelling a loop that never
terminates.  Transcendental functions (`Math.cos`, `Math.sin`, `Math.tan`,
`Math.sqrt`, `Math.PI`) are abstracted as a record `TrigFns` of rational
functions passed to every definition that needs them; division by zero in
`ℚ` is total (`x / 0 = 0`).
-/

set_option maxHeartbeats 1000000

namespace OpenGCodeGen

/-- A 2D point with rational coordinates. -/
structure Pt where
  x : ℚ
  y : ℚ
deriving DecidableEq, Repr

/-- The `shape` parameter variants. -/
inductive Shape
  | square
  | rectangle
  | circle
  | sketch
  | text
deriving DecidableEq, Repr

/-- The `operation` parameter variants. -/
inductive Operation
  | outside
  | inside
  | center
deriving DecidableEq, Repr

/-- The `opType` parameter variants; anything other than `'facing'` and
`'text'` takes the contour branch in `generate`. -/
inductive OpType
  | contour
  | facing
  | text
deriving DecidableEq, Repr

/-- The `leadType` parameter variants (`!p.leadType` behaves as `'none'`). -/
inductive LeadType
  | none
  | linear
  | radius
deriving DecidableEq, Repr

/-- The `facingDirection` parameter variants. -/
inductive FacingDirection
  | climb
  | conventional
  | both
deriving DecidableEq, Repr

/-- Rectangle side names used by tab descriptors. -/
inductive Side
  | bottom
  | right
  | top
  | left
deriving DecidableEq, Repr

/-- First component of the `origin` string (`'stock-'` or `'shape-'`). -/
inductive OriginKind
  | stock
  | shape
deriving DecidableEq, Repr

/-- Second component of the `origin` string. -/
inductive OriginPos
  | center
  | bottomLeft
  | bottomRight
  | topLeft
  | topRight
deriving DecidableEq, Repr

/-- The parsed `origin` parameter. -/
structure Origin where
  kind : OriginKind
  pos : OriginPos
deriving DecidableEq, Repr

/-- A tab descriptor: rectangular shapes use `side`/`offset` (percent along
the side), circular shapes use `angle` (degrees). -/
structure Tab where
  side : Side
  offset : ℚ
  angle : ℚ
deriving DecidableEq, Repr

/-- One entry of `textObjects`. -/
structure TextObj where
  text : List Char
  x : ℚ
  y : ℚ
  size : ℚ
deriving DecidableEq, Repr

/-- The `rampData` object built in `generate` and consumed by `getShapePath`. -/
structure RampData where
  startZ : ℚ
  targetZ : ℚ
  angle : ℚ
deriving DecidableEq, Repr

/-- Abstraction of the JavaScript `Math` functions used by the source. -/
structure TrigFns where
  cos : ℚ → ℚ
  sin : ℚ → ℚ
  tan : ℚ → ℚ
  sqrt : ℚ → ℚ
  pi : ℚ

/-- Comment text attached to the safe-Z moves of the header and footer
(they are part of the emitted line in the source). -/
inductive Note
  | moveToSafe
  | retract
deriving DecidableEq, Repr

/-- One emitted G-code line, carrying the exact rational values whose
fixed-point rendering the source prints. -/
inductive Line
  | cOp (shape : Shape)
  | cTool (dia depth : ℚ)
  | cOrigin (o : Origin)
  | cTabs (n : ℕ)
  | g21
  | g90
  | m3 (s : ℚ)
  | m5
  | m30
  | g0Z (z : ℚ)
  | g1ZF (z f : ℚ)
  | g0XY (x y : ℚ)
  | g1XYF (x y f : ℚ)
  | g1XYZF (x y z f : ℚ)
  | g2 (x y i j f : ℚ)
  | g3 (x y i j f : ℚ)
  | g3Z (x y z i j f : ℚ)
  | cPass (z : ℚ)
  | cFacingPass (z : ℚ)
  | cFinish
  | cRough (n : ℚ)
  | cRamp (z1 z2 : ℚ)
  | cText (s : List Char) (x y : ℚ)
  | withNote (l : Line) (n : Note)
deriving DecidableEq, Repr

/-- The Parameter Record (`this.params`). -/
structure Params where
  shape : Shape
  operation : Operation
  opType : OpType
  width : ℚ
  height : ℚ
  diameter : ℚ
  sketchPoints : List Pt
  textObjects : List TextObj
  toolDiameter : ℚ
  targetDepth : ℚ
  passDepth : ℚ
  feedRate : ℚ
  spindleSpeed : ℚ
  safeZ : ℚ
  enableRapid : Bool
  rapidXY : ℚ
  rapidZ : ℚ
  enableRoughing : Bool
  roughingPasses : ℚ
  roughingStepover : ℚ
  leadType : LeadType
  leadInLen : ℚ
  leadOutLen : ℚ
  enableTabs : Bool
  tabWidth : ℚ
  tabThickness : ℚ
  tabs : List Tab
  enableRamp : Bool
  rampAngle : ℚ
  rampClearance : ℚ
  stepover : ℚ
  facingDirection : FacingDirection
  passExtX : ℚ
  passExtY : ℚ
  origin : Origin
  stockWidth : ℚ
  stockHeight : ℚ
  shapeWidth : ℚ
  shapeHeight : ℚ

/-- JavaScript `x || d` on numbers whose only falsy value here is `0`. -/
def jsOr (x d : ℚ) : ℚ := if x = 0 then d else x

/-- `interpolate(p1, p2, t)` from the source. -/
def interpolate (p1 p2 : Pt) (t : ℚ) : Pt :=
  ⟨p1.x + (p2.x - p1.x) * t, p1.y + (p2.y - p1.y) * t⟩

/-- `getTranslation()`: the origin translation vector. -/
def getTranslation (p : Params) : Pt :=
  let w := match p.origin.kind with
    | .shape => p.shapeWidth
    | .stock => p.stockWidth
  let h := match p.origin.kind with
    | .shape => p.shapeHeight
    | .stock => p.stockHeight
  match p.origin.pos with
  | .center => ⟨0, 0⟩
  | .bottomLeft => ⟨w / 2, h / 2⟩
  | .bottomRight => ⟨-w / 2, h / 2⟩
  | .topLeft => ⟨w / 2, -h / 2⟩
  | .topRight => ⟨-w / 2, -h / 2⟩

/-- `getRapidZ(z)`: controlled linear move when `enableRapid`, else `G0`. -/
def getRapidZLine (p : Params) (z : ℚ) : Line :=
  if p.enableRapid then .g1ZF z p.rapidZ else .g0Z z

/-- `getRapidXY(x, y)`. -/
def getRapidXYLine (p : Params) (x y : ℚ) : Line :=
  if p.enableRapid then .g1XYF x y p.rapidXY else .g0XY x y

/-- `getStartPosition(shape, offset)`. -/
def getStartPosition (p : Params) (shape : Shape) (offset : ℚ) : Pt :=
  let t := getTranslation p
  match shape with
  | .square | .rectangle =>
    -- the source's width ternary yields `p.width` for both square and rectangle
    let w := p.width / 2 + offset
    let h := (if shape = Shape.square then p.width else p.height) / 2 + offset
    ⟨-w + t.x, -h + t.y⟩
  | .circle =>
    let r := p.diameter / 2 + offset
    ⟨r + t.x, 0 + t.y⟩
  | .sketch =>
    match p.sketchPoints with
    | [] => ⟨0, 0⟩
    | q :: _ => ⟨q.x + t.x, q.y + t.y⟩
  | .text => ⟨0, 0⟩

/-- Stable insertion of a tab into a list sorted by `key`. -/
def insertTabBy (key : Tab → ℚ) (t : Tab) : List Tab → List Tab
  | [] => [t]
  | u :: us => if key t ≤ key u then t :: u :: us else u :: insertTabBy key t us

/-- Insertion sort modelling `Array.prototype.sort` with the numeric
comparator `(a, b) => key(a) - key(b)`. -/
def sortTabsBy (key : Tab → ℚ) : List Tab → List Tab
  | [] => []
  | t :: ts => insertTabBy key t (sortTabsBy key ts)

/-- `tabTopZ = -(p.targetDepth - p.tabThickness)`. -/
def tabTopZ (p : Params) : ℚ := -(p.targetDepth - p.tabThickness)

/-- The lift-over-tab line emitted inside tab spans. -/
def liftLine (p : Params) : Line :=
  if p.enableRapid then .g1ZF (tabTopZ p) p.rapidZ else .g0Z (tabTopZ p)

/-- The plunge line `G1 Z.. F${p.feedRate / 2}`. -/
def plungeLine (p : Params) (z : ℚ) : Line := .g1ZF z (p.feedRate / 2)

/-- Result object of `getLeadIn`. -/
structure Lead where
  start : Pt
  moves : List Line
deriving DecidableEq, Repr

/-- Tangent and outward-normal vectors computed at the start of `getLeadIn`. -/
def leadInTangent (T : TrigFns) (p : Params) (shape : Shape) : Pt × Pt :=
  match shape with
  | .square | .rectangle => (⟨1, 0⟩, ⟨0, -1⟩)
  | .circle => (⟨0, 1⟩, ⟨1, 0⟩)
  | .sketch =>
    match p.sketchPoints with
    | q0 :: q1 :: _ =>
      let dx := q1.x - q0.x
      let dy := q1.y - q0.y
      let mag := T.sqrt (dx * dx + dy * dy)
      let tx := if 0 < mag then dx / mag else 0
      let ty := if 0 < mag then dy / mag else 0
      (⟨tx, ty⟩, ⟨ty, -tx⟩)
    | _ => (⟨0, 0⟩, ⟨0, 0⟩)
  | .text => (⟨0, 0⟩, ⟨0, 0⟩)

/-- Tangent and normal vectors computed at the start of `getLeadOut`. -/
def leadOutTangent (T : TrigFns) (p : Params) (shape : Shape) : Pt × Pt :=
  match shape with
  | .square | .rectangle => (⟨0, -1⟩, ⟨1, 0⟩)
  | .circle => (⟨0, 1⟩, ⟨1, 0⟩)
  | .sketch =>
    match p.sketchPoints with
    | q0 :: q1 :: rest =>
      let pLast := (q1 :: rest).getLast (List.cons_ne_nil q1 rest)
      let dx := q0.x - pLast.x
      let dy := q0.y - pLast.y
      let mag := T.sqrt (dx * dx + dy * dy)
      let tx := if 0 < mag then dx / mag else 0
      let ty := if 0 < mag then dy / mag else 0
      (⟨tx, ty⟩, ⟨ty, -tx⟩)
    | _ => (⟨0, 0⟩, ⟨0, 0⟩)
  | .text => (⟨0, 0⟩, ⟨0, 0⟩)

/-- `getLeadIn(shape, startPos, offset, p)`. -/
def getLeadIn (T : TrigFns) (shape : Shape) (startPos : Pt) (offset : ℚ) (p : Params) :
    Option Lead :=
  if p.leadType = .none ∨ p.leadInLen = 0 then none
  else
    let len := p.leadInLen
    let feed := p.feedRate
    let tn := leadInTangent T p shape
    let tv := tn.1
    let nv := tn.2
    if p.leadType = .linear then
      some ⟨⟨startPos.x - tv.x * len, startPos.y - tv.y * len⟩,
        [.g1XYF startPos.x startPos.y feed]⟩
    else if p.leadType = .radius ∧ shape = .circle then
      let cxv := if p.operation = .inside then -nv.x else nv.x
      let cyv := if p.operation = .inside then -nv.y else nv.y
      let centerX := startPos.x + cxv * len
      let centerY := startPos.y + cyv * len
      if p.operation = .outside ∨ p.operation = .center then
        let sx := centerX + nv.y * len
        let sy := centerY + (-nv.x) * len
        some ⟨⟨sx, sy⟩, [.g3 startPos.x startPos.y (centerX - sx) (centerY - sy) feed]⟩
      else
        let cX := startPos.x - nv.x * len
        let cY := startPos.y - nv.y * len
        let sx := cX + nv.y * len
        let sy := cY + (-nv.x) * len
        some ⟨⟨sx, sy⟩, [.g3 startPos.x startPos.y (cX - sx) (cY - sy) feed]⟩
    else if p.leadType = .radius then
      -- fallback to linear for non-circle shapes
      some ⟨⟨startPos.x - tv.x * len, startPos.y - tv.y * len⟩,
        [.g1XYF startPos.x startPos.y feed]⟩
    else
      some ⟨startPos, []⟩

/-- `getLeadOut(shape, startPos, offset, p)`: the source returns `{moves}`. -/
def getLeadOut (T : TrigFns) (shape : Shape) (startPos : Pt) (offset : ℚ) (p : Params) :
    Option (List Line) :=
  if p.leadType = .none ∨ p.leadOutLen = 0 then none
  else
    let len := p.leadOutLen
    let feed := p.feedRate
    let tn := leadOutTangent T p shape
    let tv := tn.1
    let nv := tn.2
    if p.leadType = .linear then
      some [.g1XYF (startPos.x + tv.x * len) (startPos.y + tv.y * len) feed]
    else if p.leadType = .radius ∧ shape = .circle then
      let cxv := if p.operation = .inside then -nv.x else nv.x
      let cyv := if p.operation = .inside then -nv.y else nv.y
      let cX := startPos.x + cxv * len
      let cY := startPos.y + cyv * len
      let I := cX - startPos.x
      let J := cY - startPos.y
      if p.operation = .inside then
        some [.g3 (cX + cyv * len) (cY + (-cxv) * len) I J feed]
      else
        some [.g2 (cX + (-cyv) * len) (cY + cxv * len) I J feed]
    else if p.leadType = .radius then
      some [.g1XYF (startPos.x + tv.x * len) (startPos.y + tv.y * len) feed]
    else
      some []

/-- One side of the rectangle path: name, start corner, end corner, length
(the source computes `len` as `w*2`/`h*2` without absolute value). -/
structure SideSpec where
  name : Side
  sStart : Pt
  sEnd : Pt
  len : ℚ
deriving DecidableEq, Repr

/-- The four sides of the rectangle cut path, bottom → right → top → left. -/
def rectSides (p : Params) (shape : Shape) (offset : ℚ) : List SideSpec :=
  let w := p.width / 2 + offset
  let h := (if shape = Shape.square then p.width else p.height) / 2 + offset
  let bl : Pt := ⟨-w, -h⟩
  let br : Pt := ⟨w, -h⟩
  let tr : Pt := ⟨w, h⟩
  let tl : Pt := ⟨-w, h⟩
  [⟨.bottom, bl, br, w * 2⟩, ⟨.right, br, tr, h * 2⟩,
   ⟨.top, tr, tl, w * 2⟩, ⟨.left, tl, bl, h * 2⟩]

/-- The four lines emitted for one valid tab on a rectangle side: cut to the
tab start, lift to `tabTopZ`, traverse to the tab end, re-plunge. -/
def rectTabBlock (p : Params) (t : Pt) (feedRate z : ℚ) (side : SideSpec) (tab : Tab) :
    List Line :=
  let dist := side.len * (tab.offset / 100)
  let tabHalfW := p.tabWidth / 2
  let dStart := max 0 (dist - tabHalfW)
  let dEnd := min side.len (dist + tabHalfW)
  if dStart < dEnd then
    let pS := interpolate side.sStart side.sEnd (dStart / side.len)
    let pE := interpolate side.sStart side.sEnd (dEnd / side.len)
    [Line.g1XYF (pS.x + t.x) (pS.y + t.y) feedRate, liftLine p,
     Line.g1XYF (pE.x + t.x) (pE.y + t.y) feedRate, plungeLine p z]
  else []

/-- The per-side emission of the rectangle cut path (`sides.forEach` body);
the sort acts on the freshly filtered array, never on `p.tabs` itself. -/
def rectSideMoves (p : Params) (t : Pt) (feedRate z : ℚ) (isTab : Bool) (side : SideSpec) :
    List Line :=
  let sideTabs := if isTab then p.tabs.filter (fun tb => tb.side == side.name) else []
  let endMove := Line.g1XYF (side.sEnd.x + t.x) (side.sEnd.y + t.y) feedRate
  if sideTabs.isEmpty then [endMove]
  else
    ((sortTabsBy (fun tb => tb.offset) sideTabs).flatMap (rectTabBlock p t feedRate z side))
      ++ [endMove]

/-- `getCoords(angleDeg)` of the tabbed-circle branch. -/
def circleCoords (T : TrigFns) (t : Pt) (r angleDeg : ℚ) : Pt :=
  let rad := angleDeg * T.pi / 180
  ⟨t.x + r * T.cos rad, t.y + r * T.sin rad⟩

/-- `addArc(startAng, endAng)` of the tabbed-circle branch. -/
def circleArcLine (T : TrigFns) (t : Pt) (r feedRate startAng endAng : ℚ) : Line :=
  let e := circleCoords T t r endAng
  let s := circleCoords T t r startAng
  .g3 e.x e.y (t.x - s.x) (t.y - s.y) feedRate

/-- One iteration of `sortedTabs.forEach` in the tabbed-circle branch,
carried as a fold over `(currentAngle, moves)`. -/
def circleTabStep (T : TrigFns) (p : Params) (t : Pt) (r feedRate z : ℚ)
    (acc : ℚ × List Line) (tab : Tab) : ℚ × List Line :=
  let currentAngle := acc.1
  let halfAngleW := ((p.tabWidth / r) * (180 / T.pi)) / 2
  let startA := tab.angle - halfAngleW
  let endA := tab.angle + halfAngleW
  if currentAngle < startA then
    let tabEnd := circleCoords T t r endA
    let tabStart := circleCoords T t r startA
    (endA, acc.2 ++
      [circleArcLine T t r feedRate currentAngle startA, liftLine p,
       Line.g3 tabEnd.x tabEnd.y (t.x - tabStart.x) (t.y - tabStart.y) feedRate,
       plungeLine p z])
  else acc

/-- The ramping branch of `getShapePath` (when `rampData` is supplied). -/
def rampMoves (T : TrigFns) (p : Params) (shape : Shape) (offset feedRate : ℚ)
    (rd : RampData) (t : Pt) : List Line :=
  let totalDrop := rd.targetZ - rd.startZ
  let angleRad := rd.angle * T.pi / 180
  let distNeeded := |totalDrop| / T.tan angleRad
  let perimeter0 : ℚ :=
    match shape with
    | .circle => 2 * T.pi * |p.diameter / 2 + offset|
    | .square | .rectangle =>
      let wEff := p.width + offset * 2
      let hEff := (if shape = Shape.square then p.width else p.height) + offset * 2
      |wEff| * 2 + |hEff| * 2
    | _ => 0
  let perimeter := if perimeter0 ≤ 0 then 1 else perimeter0
  let loops : ℤ := ⌈distNeeded / perimeter⌉
  let dropPerLoop := totalDrop / (loops : ℚ)
  ((List.range loops.toNat).foldl (fun (acc : ℚ × List Line) l =>
    let zCursor := acc.1
    let loopEndZ := zCursor + dropPerLoop
    let targetZForLoop := if (l : ℤ) = loops - 1 then rd.targetZ else loopEndZ
    let dropForThisLoop := targetZForLoop - zCursor
    match shape with
    | .circle =>
      let r := p.diameter / 2 + offset
      (targetZForLoop,
        acc.2 ++ [Line.g3Z (r + t.x) (0 + t.y) targetZForLoop (-r) 0 feedRate])
    | .square | .rectangle =>
      let w := p.width / 2 + offset
      let h := (if shape = Shape.square then p.width else p.height) / 2 + offset
      let bl : Pt := ⟨-w, -h⟩
      let br : Pt := ⟨w, -h⟩
      let tr : Pt := ⟨w, h⟩
      let tl : Pt := ⟨-w, h⟩
      let sides : List (Pt × ℚ) := [(br, |w * 2|), (tr, |h * 2|), (tl, |w * 2|), (bl, |h * 2|)]
      let totalLen := sides.foldl (fun s sd => s + sd.2) 0
      let inner := sides.foldl (fun (a : ℚ × List Line) sd =>
        let zC := a.1 + dropForThisLoop * (sd.2 / totalLen)
        (zC, a.2 ++ [Line.g1XYZF (sd.1.x + t.x) (sd.1.y + t.y) zC feedRate])) (zCursor, acc.2)
      (targetZForLoop, inner.2)
    | _ => (targetZForLoop, acc.2)) (rd.startZ, ([] : List Line))).2

/-- `getShapePath(shape, offset, feedRate, currentZ, rampData)`. -/
def getShapePath (T : TrigFns) (p : Params) (shape : Shape) (offset feedRate currentZ : ℚ)
    (rampData : Option RampData) : List Line :=
  let t := getTranslation p
  let isTabPass : Bool := rampData.isNone && p.enableTabs && !p.tabs.isEmpty &&
    decide (currentZ < tabTopZ p - 1 / 1000)
  match rampData with
  | some rd => rampMoves T p shape offset feedRate rd t
  | none =>
    match shape with
    | .sketch =>
      match p.sketchPoints with
      | q0 :: q1 :: rest =>
        ((q1 :: rest).map fun q => Line.g1XYF (q.x + t.x) (q.y + t.y) feedRate)
          ++ [Line.g1XYF (q0.x + t.x) (q0.y + t.y) feedRate]
      | _ => []
    | .square | .rectangle =>
      (rectSides p shape offset).flatMap (rectSideMoves p t feedRate currentZ isTabPass)
    | .circle =>
      let r := p.diameter / 2 + offset
      if !isTabPass then
        [Line.g3 (r + t.x) (0 + t.y) (-r) 0 feedRate]
      else
        let res := (sortTabsBy (fun tb => tb.angle) p.tabs).foldl
          (circleTabStep T p t r feedRate currentZ) (0, ([] : List Line))
        res.2 ++ (if res.1 < 360 then [circleArcLine T t r feedRate res.1 360] else [])
    | .text => []

/-- `getCharacterPath(char)`: the stick-font table (10 units high). -/
def getCharacterPath : Char → List (List Pt)
  | 'A' => [[⟨0, 0⟩, ⟨3, 10⟩, ⟨6, 0⟩], [⟨1, 4⟩, ⟨5, 4⟩]]
  | 'B' => [[⟨0, 0⟩, ⟨0, 10⟩, ⟨4, 10⟩, ⟨5, 9⟩, ⟨5, 6⟩, ⟨4, 5⟩, ⟨0, 5⟩],
            [⟨0, 5⟩, ⟨5, 5⟩, ⟨6, 4⟩, ⟨6, 1⟩, ⟨5, 0⟩, ⟨0, 0⟩]]
  | 'C' => [[⟨6, 2⟩, ⟨4, 0⟩, ⟨1, 0⟩, ⟨0, 2⟩, ⟨0, 8⟩, ⟨1, 10⟩, ⟨4, 10⟩, ⟨6, 8⟩]]
  | 'D' => [[⟨0, 0⟩, ⟨0, 10⟩, ⟨4, 10⟩, ⟨6, 8⟩, ⟨6, 2⟩, ⟨4, 0⟩, ⟨0, 0⟩]]
  | 'E' => [[⟨6, 0⟩, ⟨0, 0⟩, ⟨0, 10⟩, ⟨6, 10⟩], [⟨0, 5⟩, ⟨4, 5⟩]]
  | 'F' => [[⟨0, 0⟩, ⟨0, 10⟩, ⟨6, 10⟩], [⟨0, 5⟩, ⟨4, 5⟩]]
  | 'G' => [[⟨6, 8⟩, ⟨4, 10⟩, ⟨1, 10⟩, ⟨0, 8⟩, ⟨0, 2⟩, ⟨1, 0⟩, ⟨4, 0⟩, ⟨6, 2⟩, ⟨6, 5⟩, ⟨3, 5⟩]]
  | 'H' => [[⟨0, 0⟩, ⟨0, 10⟩], [⟨6, 0⟩, ⟨6, 10⟩], [⟨0, 5⟩, ⟨6, 5⟩]]
  | 'I' => [[⟨3, 0⟩, ⟨3, 10⟩], [⟨1, 0⟩, ⟨5, 0⟩], [⟨1, 10⟩, ⟨5, 10⟩]]
  | 'J' => [[⟨0, 2⟩, ⟨2, 0⟩, ⟨4, 0⟩, ⟨4, 10⟩, ⟨1, 10⟩]]
  | 'K' => [[⟨0, 0⟩, ⟨0, 10⟩], [⟨0, 5⟩, ⟨5, 10⟩], [⟨0, 5⟩, ⟨5, 0⟩]]
  | 'L' => [[⟨0, 10⟩, ⟨0, 0⟩, ⟨6, 0⟩]]
  | 'M' => [[⟨0, 0⟩, ⟨0, 10⟩, ⟨3, 7⟩, ⟨6, 10⟩, ⟨6, 0⟩]]
  | 'N' => [[⟨0, 0⟩, ⟨0, 10⟩, ⟨6, 0⟩, ⟨6, 10⟩]]
  | 'O' => [[⟨1, 0⟩, ⟨0, 2⟩, ⟨0, 8⟩, ⟨1, 10⟩, ⟨5, 10⟩, ⟨6, 8⟩, ⟨6, 2⟩, ⟨5, 0⟩, ⟨1, 0⟩]]
  | 'P' => [[⟨0, 0⟩, ⟨0, 10⟩, ⟨4, 10⟩, ⟨6, 8⟩, ⟨6, 6⟩, ⟨4, 5⟩, ⟨0, 5⟩]]
  | 'Q' => [[⟨1, 0⟩, ⟨0, 2⟩, ⟨0, 8⟩, ⟨1, 10⟩, ⟨5, 10⟩, ⟨6, 8⟩, ⟨6, 2⟩, ⟨5, 0⟩, ⟨1, 0⟩],
            [⟨4, 2⟩, ⟨6, 0⟩]]
  | 'R' => [[⟨0, 0⟩, ⟨0, 10⟩, ⟨4, 10⟩, ⟨6, 8⟩, ⟨6, 6⟩, ⟨4, 5⟩, ⟨0, 5⟩], [⟨3, 5⟩, ⟨6, 0⟩]]
  | 'S' => [[⟨0, 2⟩, ⟨2, 0⟩, ⟨4, 0⟩, ⟨6, 2⟩, ⟨6, 4⟩, ⟨0, 6⟩, ⟨0, 8⟩, ⟨2, 10⟩, ⟨4, 10⟩, ⟨6, 8⟩]]
  | 'T' => [[⟨3, 0⟩, ⟨3, 10⟩], [⟨0, 10⟩, ⟨6, 10⟩]]
  | 'U' => [[⟨0, 10⟩, ⟨0, 2⟩, ⟨2, 0⟩, ⟨4, 0⟩, ⟨6, 2⟩, ⟨6, 10⟩]]
  | 'V' => [[⟨0, 10⟩, ⟨3, 0⟩, ⟨6, 10⟩]]
  | 'W' => [[⟨0, 10⟩, ⟨1, 0⟩, ⟨3, 4⟩, ⟨5, 0⟩, ⟨6, 10⟩]]
  | 'X' => [[⟨0, 0⟩, ⟨6, 10⟩], [⟨0, 10⟩, ⟨6, 0⟩]]
  | 'Y' => [[⟨3, 0⟩, ⟨3, 5⟩, ⟨0, 10⟩], [⟨3, 5⟩, ⟨6, 10⟩]]
  | 'Z' => [[⟨0, 10⟩, ⟨6, 10⟩, ⟨0, 0⟩, ⟨6, 0⟩]]
  | '0' => [[⟨1, 0⟩, ⟨0, 2⟩, ⟨0, 8⟩, ⟨1, 10⟩, ⟨5, 10⟩, ⟨6, 8⟩, ⟨6, 2⟩, ⟨5, 0⟩, ⟨1, 0⟩],
            [⟨5, 8⟩, ⟨1, 2⟩]]
  | '1' => [[⟨1, 8⟩, ⟨3, 10⟩, ⟨3, 0⟩], [⟨1, 0⟩, ⟨5, 0⟩]]
  | '2' => [[⟨0, 8⟩, ⟨2, 10⟩, ⟨4, 10⟩, ⟨6, 8⟩, ⟨6, 5⟩, ⟨0, 0⟩, ⟨6, 0⟩]]
  | '3' => [[⟨0, 8⟩, ⟨2, 10⟩, ⟨4, 10⟩, ⟨6, 8⟩, ⟨6, 6⟩, ⟨4, 5⟩, ⟨6, 4⟩, ⟨6, 2⟩, ⟨4, 0⟩,
             ⟨2, 0⟩, ⟨0, 2⟩], [⟨2, 5⟩, ⟨4, 5⟩]]
  | '4' => [[⟨4, 0⟩, ⟨4, 10⟩, ⟨0, 3⟩, ⟨6, 3⟩]]
  | '5' => [[⟨6, 10⟩, ⟨0, 10⟩, ⟨0, 5⟩, ⟨4, 5⟩, ⟨6, 4⟩, ⟨6, 2⟩, ⟨4, 0⟩, ⟨0, 0⟩]]
  | '6' => [[⟨5, 10⟩, ⟨2, 10⟩, ⟨0, 8⟩, ⟨0, 2⟩, ⟨2, 0⟩, ⟨4, 0⟩, ⟨6, 2⟩, ⟨6, 4⟩, ⟨4, 5⟩, ⟨0, 5⟩]]
  | '7' => [[⟨0, 10⟩, ⟨6, 10⟩, ⟨2, 0⟩]]
  | '8' => [[⟨2, 5⟩, ⟨1, 6⟩, ⟨1, 9⟩, ⟨2, 10⟩, ⟨4, 10⟩, ⟨5, 9⟩, ⟨5, 6⟩, ⟨4, 5⟩, ⟨5, 4⟩,
             ⟨5, 1⟩, ⟨4, 0⟩, ⟨2, 0⟩, ⟨1, 1⟩, ⟨1, 4⟩, ⟨2, 5⟩]]
  | '9' => [[⟨6, 5⟩, ⟨2, 5⟩, ⟨0, 6⟩, ⟨0, 8⟩, ⟨2, 10⟩, ⟨4, 10⟩, ⟨6, 8⟩, ⟨6, 2⟩, ⟨4, 0⟩, ⟨1, 0⟩]]
  | ' ' => []
  | '-' => [[⟨1, 5⟩, ⟨5, 5⟩]]
  | '.' => [[⟨5 / 2, 0⟩, ⟨7 / 2, 0⟩, ⟨7 / 2, 1⟩, ⟨5 / 2, 1⟩, ⟨5 / 2, 0⟩]]
  | _ => []

/-- `generateText(lines, p)`: the lines it appends. -/
def generateText (p : Params) : List Line :=
  let t := getTranslation p
  p.textObjects.flatMap fun obj =>
    Line.cText obj.text obj.x obj.y ::
      (let scale := obj.size / 10
       let cursorY := obj.y + t.y
       ((obj.text.map Char.toUpper).foldl (fun (acc : ℚ × List Line) c =>
         let cursorX := acc.1
         let charLines := (getCharacterPath c).flatMap fun path =>
           match path with
           | [] => []
           | q0 :: rest =>
             [getRapidXYLine p (cursorX + q0.x * scale) (cursorY + q0.y * scale),
              plungeLine p (-p.targetDepth)]
               ++ (rest.map fun q =>
                    Line.g1XYF (cursorX + q.x * scale) (cursorY + q.y * scale) p.feedRate)
               ++ [getRapidZLine p p.safeZ]
         (cursorX + 8 * scale, acc.2 ++ charLines)) (obj.x + t.x, ([] : List Line))).2)

/-- The depth-pass loop `while (currentZ > -targetDepth) {...}` as a fueled
recursion returning the emitted sequence of pass Z values; `none` models a
loop that never terminates within the given fuel. -/
def zSeq : ℕ → ℚ → ℚ → ℚ → Option (List ℚ)
  | 0, _, td, cur => if -td < cur then none else some []
  | n + 1, pd, td, cur =>
    if -td < cur then
      let next := cur - pd
      let z := if next < -td then -td else next
      (zSeq n pd td z).map (z :: ·)
    else some []

/-- Fuel sufficient for the depth-pass loop whenever it terminates at all. -/
def zFuel (pd td : ℚ) : ℕ := if 0 < pd then (⌈td / pd⌉).toNat + 2 else 1

/-- The full pass-Z sequence starting from `currentZ = 0`. -/
def passZs (pd td : ℚ) : Option (List ℚ) := zSeq (zFuel pd td) pd td 0

/-- The roughing loop `for (let i = roughingPasses; i >= 1; i--)` collecting
the loop-counter values; JavaScript terminates for every finite `i`, the
fuel `⌈i⌉.toNat` is always enough. -/
def roughDescend : ℕ → ℚ → List ℚ
  | 0, _ => []
  | n + 1, i => if 1 ≤ i then i :: roughDescend n (i - 1) else []

/-- The signed path offset computed at the top of the contour branch. -/
def offsetFor (p : Params) : ℚ :=
  match p.operation with
  | .outside => p.toolDiameter / 2
  | .inside => -p.toolDiameter / 2
  | .center => 0

/-- `dirMult` of the roughing-offset computation. -/
def dirMult (p : Params) : ℚ :=
  match p.operation with
  | .outside => 1
  | .inside => -1
  | .center => 0

/-- The per-depth offset list `passOffsets` (roughing offsets, then the
finish offset as the final element). -/
def passOffsets (p : Params) (offset : ℚ) : List ℚ :=
  (if p.enableRoughing ∧ 0 < p.roughingPasses ∧ 0 < p.roughingStepover then
     (if dirMult p ≠ 0 then
        (roughDescend (⌈p.roughingPasses⌉).toNat p.roughingPasses).map
          (fun i => offset + i * p.roughingStepover * dirMult p)
      else [])
   else []) ++ [offset]

/-- The lines emitted by `passOffsets.forEach((currentOffset, idx) => ...)`
for one `(z, offset)` pair. -/
def passLines (T : TrigFns) (p : Params) (z off : ℚ) (isFinish : Bool) (idx : ℕ) :
    List Line :=
  let nameLine : Line :=
    if isFinish then .cFinish else .cRough (p.roughingPasses - (idx : ℚ))
  let startPos := getStartPosition p p.shape off
  let leadIn := getLeadIn T p.shape startPos off p
  let leadOut := getLeadOut T p.shape startPos off p
  let moveStart := match leadIn with
    | some li => li.start
    | none => startPos
  [nameLine, getRapidXYLine p moveStart.x moveStart.y]
    ++ (if p.enableRamp then
          let prevZ := z + p.passDepth
          let rampStartZ := prevZ + jsOr p.rampClearance (1 / 2)
          [getRapidZLine p rampStartZ, Line.cRamp rampStartZ z]
            ++ getShapePath T p p.shape off p.feedRate z (some ⟨rampStartZ, z, jsOr p.rampAngle 2⟩)
            ++ getShapePath T p p.shape off p.feedRate z none
        else
          plungeLine p z ::
            ((match leadIn with
              | some li => li.moves
              | none => []) ++ getShapePath T p p.shape off p.feedRate z none))
    ++ (match leadOut with
        | some lo => lo
        | none => [])
    ++ (if !isFinish || p.enableRamp then [getRapidZLine p p.safeZ] else [])

/-- `facingDims`: the `w`/`h` selection at the top of `generateFacing`. -/
def facingDims (p : Params) : ℚ × ℚ :=
  match p.shape with
  | .square => (p.width, p.width)
  | .rectangle => (p.width, p.height)
  | .circle => (p.diameter, p.diameter)
  | .sketch => (p.shapeWidth, p.shapeHeight)
  | .text => (0, 0)

/-- The facing row loop `while (y <= endY + 0.001)` as a fueled recursion. -/
def facingYLoop (p : Params) (t : Pt) (startX endX endY step z : ℚ) :
    ℕ → ℚ → ℚ → Option (List Line)
  | 0, _, _ => none
  | fuel + 1, y, cutDir =>
    if y ≤ endY + 1 / 1000 then
      let targetX := if cutDir = 1 then endX else startX
      let cut := Line.g1XYF (targetX + t.x) (y + t.y) p.feedRate
      if y < endY then
        let nextY0 := y + step
        let nextY := if endY < nextY0 then endY else nextY0
        if p.facingDirection = .both then
          (facingYLoop p t startX endX endY step z fuel nextY (-cutDir)).map fun rest =>
            cut :: Line.g1XYF (targetX + t.x) (nextY + t.y) p.feedRate :: rest
        else
          let lift := if p.enableRapid then Line.g1ZF p.safeZ p.rapidZ else Line.g0Z p.safeZ
          let nextStartX := if cutDir = 1 then startX else endX
          (facingYLoop p t startX endX endY step z fuel nextY cutDir).map fun rest =>
            cut :: lift :: getRapidXYLine p (nextStartX + t.x) (nextY + t.y) ::
              plungeLine p z :: rest
      else some [cut]
    else some []

/-- `generateFacing(lines, p)`: the lines it appends (`p.passExtX || 0`
equals `p.passExtX` on rationals since `0 || 0 = 0`). -/
def generateFacing (p : Params) : Option (List Line) :=
  let wh := facingDims p
  let w := wh.1
  let h := wh.2
  let r := p.toolDiameter / 2
  let startX := -(w / 2) - r - p.passExtX
  let endX := w / 2 + r + p.passExtX
  let startY := -(h / 2) - r - p.passExtY
  let endY := h / 2 + r + p.passExtY
  let step := if 0 < p.stepover then p.stepover else p.toolDiameter * (2 / 5)
  let t := getTranslation p
  let yFuel := if 0 < step then (⌈(endY - startY) / step⌉).toNat + 3 else 1
  (passZs p.passDepth p.targetDepth).bind fun zs =>
    (zs.mapM fun z =>
      let cutDir0 : ℚ := if p.facingDirection = .conventional then -1 else 1
      let startXRun := if cutDir0 = 1 then startX else endX
      (facingYLoop p t startX endX endY step z yFuel startY cutDir0).map fun rows =>
        [Line.cFacingPass z, getRapidXYLine p (startXRun + t.x) (startY + t.y),
         plungeLine p z] ++ rows ++ [getRapidZLine p p.safeZ]).map List.flatten

/-- `generate()`: header, opType dispatch, footer.  The result is `none`
exactly when one of the source's `while` loops would never terminate. -/
def generate (T : TrigFns) (p : Params) : Option (List Line) :=
  let header : List Line :=
    [.cOp p.shape, .cTool p.toolDiameter p.targetDepth, .cOrigin p.origin]
      ++ (if p.enableTabs then [Line.cTabs p.tabs.length] else [])
      ++ [.g21, .g90, .m3 p.spindleSpeed, .withNote (getRapidZLine p p.safeZ) .moveToSafe]
  let footer : List Line := [.withNote (getRapidZLine p p.safeZ) .retract, .m5, .m30]
  let body : Option (List Line) :=
    match p.opType with
    | .facing => generateFacing p
    | .text => some (generateText p)
    | .contour =>
      let offset := offsetFor p
      let offs := passOffsets p offset
      (passZs p.passDepth p.targetDepth).map fun zs =>
        zs.flatMap fun z =>
          Line.cPass z ::
            offs.enum.flatMap fun e =>
              passLines T p z e.2 (decide (e.1 = offs.length - 1)) e.1
  body.map fun b => header ++ b ++ footer

/-- State-instrumented variant of `getShapePath` threading the parameter
record: a write to a field of `this.params`, or an in-place mutation of an
array aliased to one of its fields, would surface as an updated first
component.  The rectangle branch sorts only the result of
`p.tabs.filter(...)` and the circle branch sorts the spread copy
`[...p.tabs]`, so every branch returns the record unchanged. -/
def getShapePathSt (T : TrigFns) (p : Params) (shape : Shape)
    (offset feedRate currentZ : ℚ) (rampData : Option RampData) : Params × List Line :=
  let t := getTranslation p
  let isTabPass : Bool := rampData.isNone && p.enableTabs && !p.tabs.isEmpty &&
    decide (currentZ < tabTopZ p - 1 / 1000)
  match rampData with
  | some rd => (p, rampMoves T p shape offset feedRate rd t)
  | none =>
    match shape with
    | .sketch =>
      match p.sketchPoints with
      | q0 :: q1 :: rest =>
        (p, ((q1 :: rest).map fun q => Line.g1XYF (q.x + t.x) (q.y + t.y) feedRate)
          ++ [Line.g1XYF (q0.x + t.x) (q0.y + t.y) feedRate])
      | _ => (p, [])
    | .square | .rectangle =>
      (p, (rectSides p shape offset).flatMap (rectSideMoves p t feedRate currentZ isTabPass))
    | .circle =>
      let r := p.diameter / 2 + offset
      if !isTabPass then
        (p, [Line.g3 (r + t.x) (0 + t.y) (-r) 0 feedRate])
      else
        let res := (sortTabsBy (fun tb => tb.angle) p.tabs).foldl
          (circleTabStep T p t r feedRate currentZ) (0, ([] : List Line))
        (p, res.2 ++ (if res.1 < 360 then [circleArcLine T t r feedRate res.1 360] else []))
    | .text => (p, [])

/-- A line that sets the Z axis (a lift, plunge, or Z-interpolated move);
plain `G1 X.. Y..` cut moves leave the modal Z at the pass depth. -/
def isZSet : Line → Bool
  | .g0Z _ => true
  | .g1ZF _ _ => true
  | .g1XYZF _ _ _ _ => true
  | .g3Z _ _ _ _ _ _ => true
  | _ => false

/-- Structure of a tab-treated cut path at pass depth `z` and feed `f`:
every line is either a plain cut move (line or arc, at the pass Z), or part
of a hop triple — a lift to exactly `tabTopZ`, one traverse at that height,
and a re-plunge to exactly `z` at half feed. -/
inductive TabHopPath (p : Params) (z f : ℚ) : List Line → Prop
  | nil : TabHopPath p z f []
  | cutLine (x y : ℚ) {rest : List Line} :
      TabHopPath p z f rest → TabHopPath p z f (.g1XYF x y f :: rest)
  | cutArc (x y i j : ℚ) {rest : List Line} :
      TabHopPath p z f rest → TabHopPath p z f (.g3 x y i j f :: rest)
  | hopLine (x y : ℚ) {rest : List Line} :
      TabHopPath p z f rest →
      TabHopPath p z f (liftLine p :: .g1XYF x y f :: plungeLine p z :: rest)
  | hopArc (x y i j : ℚ) {rest : List Line} :
      TabHopPath p z f rest →
      TabHopPath p z f (liftLine p :: .g3 x y i j f :: plungeLine p z :: rest)

/-- A concrete trig record used to instantiate theorems at concrete inputs
(the claims settled here do not depend on the numeric values). -/
def trigW : TrigFns := ⟨fun _ => 1, fun _ => 0, fun _ => 1, fun _ => 0, 355 / 113⟩

/-- A concrete Parameter Record: the spec's end-to-end scenario (square,
width 50, outside, tool 3, one pass at depth 5). -/
def pBase : Params := {
  shape := .square, operation := .outside, opType := .contour,
  width := 50, height := 40, diameter := 50, sketchPoints := [], textObjects := [],
  toolDiameter := 3, targetDepth := 5, passDepth := 5, feedRate := 500,
  spindleSpeed := 10000, safeZ := 5, enableRapid := false, rapidXY := 1000, rapidZ := 500,
  enableRoughing := false, roughingPasses := 0, roughingStepover := 0,
  leadType := .none, leadInLen := 0, leadOutLen := 0,
  enableTabs := false, tabWidth := 0, tabThickness := 0, tabs := [],
  enableRamp := false, rampAngle := 0, rampClearance := 0,
  stepover := 0, facingDirection := .both, passExtX := 0, passExtY := 0,
  origin := ⟨.stock, .center⟩, stockWidth := 100, stockHeight := 100,
  shapeWidth := 50, shapeHeight := 50 }

/-- Tabbed variant: square 50, center operation, one bottom tab at 50 %,
width 10, thickness 2, target depth 10, pass depth 3. -/
def pTabs : Params :=
  { pBase with operation := .center, enableTabs := true, targetDepth := 10, passDepth := 3,
               tabThickness := 2, tabWidth := 10, tabs := [⟨.bottom, 50, 0⟩] }

/-- Tabbed variant whose first pass lands exactly on `tabTopZ - 0.001`. -/
def pC1 : Params := { pTabs with passDepth := 8001 / 1000 }

/-- Two plain depth passes (target 2, pass 1), no roughing, no ramp. -/
def pC3 : Params := { pBase with targetDepth := 2, passDepth := 1 }

/-- A record whose numeric `passDepth` has been defaulted to zero. -/
def pC4 : Params := { pBase with passDepth := 0 }

/-- The spec's roughing example: outside, tool 6, 2 roughing passes, step 1. -/
def pC6 : Params :=
  { pBase with toolDiameter := 6, enableRoughing := true, roughingPasses := 2,
               roughingStepover := 1 }

/-- A record with nonzero lead lengths, for instantiating the lead theorems. -/
def pLead : Params := { pBase with leadInLen := 5, leadOutLen := 4 }

/-! ### Helper lemmas -/

theorem mem_insertTabBy {key : Tab → ℚ} {t u : Tab} : ∀ {l : List Tab},
    u ∈ insertTabBy key t l ↔ u = t ∨ u ∈ l
  | [] => by simp [insertTabBy]
  | v :: vs => by
    by_cases h : key t ≤ key v
    · simp [insertTabBy, h]
    · simp only [insertTabBy, if_neg h, List.mem_cons, mem_insertTabBy (l := vs)]
      tauto

theorem mem_sortTabsBy {key : Tab → ℚ} {u : Tab} : ∀ {l : List Tab},
    u ∈ sortTabsBy key l ↔ u ∈ l
  | [] => by simp [sortTabsBy]
  | v :: vs => by
    simp [sortTabsBy, mem_insertTabBy, @mem_sortTabsBy key u vs]

theorem flatMap_chunk {α β : Type} (f : α → List β) {l : List α} {a : α} (h : a ∈ l) :
    ∃ u v, l.flatMap f = u ++ f a ++ v := by
  induction l with
  | nil => cases h
  | cons b bs ih =>
    rcases List.mem_cons.mp h with rfl | h'
    · exact ⟨[], bs.flatMap f, by simp⟩
    · obtain ⟨u, v, huv⟩ := ih h'
      exact ⟨f b ++ u, v, by simp [huv]⟩

theorem TabHopPath.append {p : Params} {z f : ℚ} {l1 l2 : List Line}
    (h1 : TabHopPath p z f l1) (h2 : TabHopPath p z f l2) :
    TabHopPath p z f (l1 ++ l2) := by
  induction h1 with
  | nil => simpa using h2
  | cutLine x y _ ih => exact .cutLine x y ih
  | cutArc x y i j _ ih => exact .cutArc x y i j ih
  | hopLine x y _ ih => exact .hopLine x y ih
  | hopArc x y i j _ ih => exact .hopArc x y i j ih

theorem rectSideMoves_noTab (p : Params) (t : Pt) (f z : ℚ) (side : SideSpec) :
    rectSideMoves p t f z false side =
      [Line.g1XYF (side.sEnd.x + t.x) (side.sEnd.y + t.y) f] := by
  simp [rectSideMoves]

theorem shapePath_no_zset (T : TrigFns) (p : Params) (shape : Shape) (off f z : ℚ)
    (h : tabTopZ p - 1 / 1000 ≤ z) :
    ∀ l ∈ getShapePath T p shape off f z none, isZSet l = false := by
  have hd : decide (z < tabTopZ p - 1 / 1000) = false :=
    decide_eq_false_iff_not.mpr (not_lt.mpr h)
  intro l hl
  cases shape with
  | sketch =>
    rcases hp : p.sketchPoints with _ | ⟨q0, _ | ⟨q1, rest⟩⟩ <;>
      simp [getShapePath, hp] at hl
    rcases hl with rfl | ⟨q, -, hEq⟩ | rfl
    · rfl
    · rw [← hEq]; rfl
    · rfl
  | square =>
    simp only [getShapePath, hd, Bool.and_false] at hl
    simp only [List.mem_flatMap, rectSideMoves_noTab] at hl
    obtain ⟨s, _, hl⟩ := hl
    simp at hl
    subst hl
    rfl
  | rectangle =>
    simp only [getShapePath, hd, Bool.and_false] at hl
    simp only [List.mem_flatMap, rectSideMoves_noTab] at hl
    obtain ⟨s, _, hl⟩ := hl
    simp at hl
    subst hl
    rfl
  | circle =>
    simp only [getShapePath, hd, Bool.and_false] at hl
    simp at hl
    subst hl
    rfl
  | text =>
    simp [getShapePath] at hl

theorem tabHop_rectTabBlock (p : Params) (t : Pt) (f z : ℚ) (side : SideSpec) (tab : Tab) :
    TabHopPath p z f (rectTabBlock p t f z side tab) := by
  dsimp only [rectTabBlock]
  split
  · exact .cutLine _ _ (.hopLine _ _ .nil)
  · exact .nil

theorem tabHop_blocks (p : Params) (t : Pt) (f z : ℚ) (side : SideSpec) :
    ∀ ts : List Tab, TabHopPath p z f (ts.flatMap (rectTabBlock p t f z side))
  | [] => .nil
  | tb :: ts => by
    rw [List.flatMap_cons]
    exact (tabHop_rectTabBlock p t f z side tb).append (tabHop_blocks p t f z side ts)

theorem tabHop_rectSideMoves (p : Params) (t : Pt) (f z : ℚ) (b : Bool) (side : SideSpec) :
    TabHopPath p z f (rectSideMoves p t f z b side) := by
  dsimp only [rectSideMoves]
  split <;> split <;>
    first
      | exact .cutLine _ _ .nil
      | exact (tabHop_blocks p t f z side _).append (.cutLine _ _ .nil)

theorem tabHop_rectPath (p : Params) (t : Pt) (f z : ℚ) (b : Bool) :
    ∀ sides : List SideSpec,
      TabHopPath p z f (sides.flatMap (rectSideMoves p t f z b))
  | [] => .nil
  | s :: ss => by
    rw [List.flatMap_cons]
    exact (tabHop_rectSideMoves p t f z b s).append (tabHop_rectPath p t f z b ss)

theorem tabHop_circleFold (T : TrigFns) (p : Params) (t : Pt) (r f z : ℚ) :
    ∀ (ts : List Tab) (acc : ℚ × List Line), TabHopPath p z f acc.2 →
      TabHopPath p z f ((ts.foldl (circleTabStep T p t r f z) acc).2)
  | [], _, h => h
  | tb :: ts, acc, h => by
    rw [List.foldl_cons]
    apply tabHop_circleFold T p t r f z ts
    dsimp only [circleTabStep]
    split
    · exact h.append (.cutArc _ _ _ _ (.hopArc _ _ _ _ .nil))
    · exact h

theorem shapePath_tabHop (T : TrigFns) (p : Params) (shape : Shape) (off f z : ℚ) :
    TabHopPath p z f (getShapePath T p shape off f z none) := by
  cases shape with
  | sketch =>
    rcases hp : p.sketchPoints with _ | ⟨q0, _ | ⟨q1, rest⟩⟩ <;>
      simp only [getShapePath, hp]
    · exact .nil
    · exact .nil
    · have : ∀ qs : List Pt, TabHopPath p z f
          ((qs.map fun q => Line.g1XYF (q.x + (getTranslation p).x)
            (q.y + (getTranslation p).y) f)
           ++ [Line.g1XYF (q0.x + (getTranslation p).x)
                (q0.y + (getTranslation p).y) f]) := by
        intro qs
        induction qs with
        | nil => exact .cutLine _ _ .nil
        | cons q qs ih => exact .cutLine _ _ ih
      exact this (q1 :: rest)
  | square =>
    simp only [getShapePath]
    exact tabHop_rectPath p _ f z _ _
  | rectangle =>
    simp only [getShapePath]
    exact tabHop_rectPath p _ f z _ _
  | circle =>
    simp only [getShapePath]
    split
    · exact .cutArc _ _ _ _ .nil
    · apply TabHopPath.append
      · exact tabHop_circleFold T p _ _ f z _ _ .nil
      · split
        · exact .cutArc _ _ _ _ .nil
        · exact .nil
  | text =>
    simp only [getShapePath]
    exact .nil

theorem rect_tab_chunk (T : TrigFns) (p : Params) (shape : Shape) (off f z : ℚ)
    (hz : z < tabTopZ p - 1 / 1000) (hen : p.enableTabs = true)
    (tab : Tab) (htab : tab ∈ p.tabs) (side : SideSpec)
    (hside : side ∈ rectSides p shape off) (hname : tab.side = side.name)
    (hshape : shape = Shape.square ∨ shape = Shape.rectangle) :
    ∃ pre post, getShapePath T p shape off f z none =
      pre ++ rectTabBlock p (getTranslation p) f z side tab ++ post := by
  have hne : p.tabs ≠ [] := List.ne_nil_of_mem htab
  have hb1 : p.tabs.isEmpty = false := List.isEmpty_eq_false.mpr hne
  have hb2 : decide (z < tabTopZ p - 1 / 1000) = true := decide_eq_true hz
  have hpath : getShapePath T p shape off f z none =
      (rectSides p shape off).flatMap
        (rectSideMoves p (getTranslation p) f z true) := by
    rcases hshape with rfl | rfl <;>
      · simp only [getShapePath]
        rw [show (Option.isNone (none : Option RampData) && p.enableTabs &&
          !p.tabs.isEmpty && decide (z < tabTopZ p - 1 / 1000)) = true by
            simp only [Option.isNone_none, Bool.true_and, hen, hb1]
            simp only [Bool.not_false, Bool.true_and, decide_eq_true_eq]
            simpa using hz]
  obtain ⟨u, v, huv⟩ :=
    flatMap_chunk (rectSideMoves p (getTranslation p) f z true) hside
  have hmem : tab ∈ p.tabs.filter (fun tb => tb.side == side.name) :=
    List.mem_filter.mpr ⟨htab, by simp [hname]⟩
  have hnemp : (p.tabs.filter (fun tb => tb.side == side.name)).isEmpty = false :=
    List.isEmpty_eq_false.mpr (List.ne_nil_of_mem hmem)
  have hsm : rectSideMoves p (getTranslation p) f z true side =
      (sortTabsBy (fun tb => tb.offset)
        (p.tabs.filter (fun tb => tb.side == side.name))).flatMap
          (rectTabBlock p (getTranslation p) f z side)
        ++ [Line.g1XYF (side.sEnd.x + (getTranslation p).x)
              (side.sEnd.y + (getTranslation p).y) f] := by
    simp [rectSideMoves, hnemp]
  have hmem2 : tab ∈ sortTabsBy (fun tb => tb.offset)
      (p.tabs.filter (fun tb => tb.side == side.name)) := mem_sortTabsBy.mpr hmem
  obtain ⟨u2, v2, h2⟩ :=
    flatMap_chunk (rectTabBlock p (getTranslation p) f z side) hmem2
  refine ⟨u ++ u2, v2 ++ [Line.g1XYF (side.sEnd.x + (getTranslation p).x)
    (side.sEnd.y + (getTranslation p).y) f] ++ v, ?_⟩
  rw [hpath, huv, hsm, h2]
  simp [List.append_assoc]

theorem rectSideMoves_getLast (p : Params) (t : Pt) (f z : ℚ) (b : Bool) (side : SideSpec) :
    (rectSideMoves p t f z b side).getLast? =
      some (Line.g1XYF (side.sEnd.x + t.x) (side.sEnd.y + t.y) f) := by
  dsimp only [rectSideMoves]
  split <;> split <;> simp

theorem flatMap_rectSideMoves_getLast (p : Params) (t : Pt) (f z : ℚ) (b : Bool) :
    ∀ sides : List SideSpec, sides ≠ [] →
      ∃ side : SideSpec, (sides.flatMap (rectSideMoves p t f z b)).getLast? =
        some (Line.g1XYF (side.sEnd.x + t.x) (side.sEnd.y + t.y) f)
  | [], h => absurd rfl h
  | [s], _ => ⟨s, by simp [rectSideMoves_getLast p t f z b s]⟩
  | s :: s2 :: rest, _ => by
    obtain ⟨side, hlast⟩ :=
      flatMap_rectSideMoves_getLast p t f z b (s2 :: rest) (List.cons_ne_nil s2 rest)
    refine ⟨side, ?_⟩
    rw [List.flatMap_cons, List.getLast?_append_of_ne_nil _ ?_, hlast]
    intro hnil
    rw [hnil] at hlast
    cases hlast

theorem getLeadIn_no_g0Z (T : TrigFns) (shape : Shape) (sp : Pt) (off : ℚ) (p : Params)
    {li : Lead} (h : getLeadIn T shape sp off p = some li) :
    ∀ l ∈ li.moves, ∀ w, l ≠ Line.g0Z w := by
  dsimp only [getLeadIn] at h
  repeat' split at h
  all_goals
    first
      | exact Option.noConfusion h
      | (injection h with h2
         subst h2
         intro l hl w
         simp at hl
         subst hl
         simp)
      | (injection h with h2
         subst h2
         intro l hl w
         simp at hl)

theorem getLeadOut_no_g0Z (T : TrigFns) (shape : Shape) (sp : Pt) (off : ℚ) (p : Params)
    {mv : List Line} (h : getLeadOut T shape sp off p = some mv) :
    ∀ l ∈ mv, ∀ w, l ≠ Line.g0Z w := by
  dsimp only [getLeadOut] at h
  repeat' split at h
  all_goals
    first
      | exact Option.noConfusion h
      | (injection h with h2
         subst h2
         intro l hl w
         simp at hl
         subst hl
         simp)
      | (injection h with h2
         subst h2
         intro l hl w
         simp at hl)

theorem circleFold_lastInv (T : TrigFns) (p : Params) (t : Pt) (r f z : ℚ) :
    ∀ (ts : List Tab) (acc : ℚ × List Line),
      (acc.2 = [] → acc.1 = 0) →
      (∀ a, acc.2.getLast? = some a → ∀ w, a ≠ Line.g0Z w) →
      ((ts.foldl (circleTabStep T p t r f z) acc).2 = [] →
        (ts.foldl (circleTabStep T p t r f z) acc).1 = 0) ∧
      (∀ a, (ts.foldl (circleTabStep T p t r f z) acc).2.getLast? = some a →
        ∀ w, a ≠ Line.g0Z w)
  | [], acc, h1, h2 => ⟨h1, h2⟩
  | tb :: ts, acc, h1, h2 => by
    rw [List.foldl_cons]
    apply circleFold_lastInv T p t r f z ts
    · dsimp only [circleTabStep]
      split
      · intro hnil
        exact absurd hnil (by simp)
      · exact h1
    · dsimp only [circleTabStep]
      split
      · intro a ha w
        rw [List.getLast?_append_of_ne_nil _ (by simp)] at ha
        simp at ha
        subst ha
        simp [plungeLine]
      · exact h2

theorem shapePath_getLast_not_g0Z (T : TrigFns) (p : Params) (shape : Shape)
    (off f z w : ℚ) :
    (getShapePath T p shape off f z none).getLast? ≠ some (Line.g0Z w) := by
  cases shape with
  | sketch =>
    rcases hp : p.sketchPoints with _ | ⟨q0, _ | ⟨q1, rest⟩⟩ <;>
      simp only [getShapePath, hp] <;> try simp
    rw [show Line.g1XYF (q1.x + (getTranslation p).x) (q1.y + (getTranslation p).y) f ::
          (List.map (fun q => Line.g1XYF (q.x + (getTranslation p).x)
            (q.y + (getTranslation p).y) f) rest ++
            [Line.g1XYF (q0.x + (getTranslation p).x) (q0.y + (getTranslation p).y) f]) =
        (Line.g1XYF (q1.x + (getTranslation p).x) (q1.y + (getTranslation p).y) f ::
          List.map (fun q => Line.g1XYF (q.x + (getTranslation p).x)
            (q.y + (getTranslation p).y) f) rest) ++
            [Line.g1XYF (q0.x + (getTranslation p).x) (q0.y + (getTranslation p).y) f]
        from rfl, List.getLast?_concat]
    simp
  | text => simp [getShapePath]
  | square =>
    simp only [getShapePath]
    obtain ⟨side, hlast⟩ := flatMap_rectSideMoves_getLast p (getTranslation p) f z
      (Option.isNone (none : Option RampData) && p.enableTabs && !p.tabs.isEmpty &&
        decide (z < tabTopZ p - 1 / 1000)) (rectSides p Shape.square off) (by simp [rectSides])
    rw [hlast]
    simp
  | rectangle =>
    simp only [getShapePath]
    obtain ⟨side, hlast⟩ := flatMap_rectSideMoves_getLast p (getTranslation p) f z
      (Option.isNone (none : Option RampData) && p.enableTabs && !p.tabs.isEmpty &&
        decide (z < tabTopZ p - 1 / 1000)) (rectSides p Shape.rectangle off) (by simp [rectSides])
    rw [hlast]
    simp
  | circle =>
    simp only [getShapePath]
    split
    · simp
    · split
      · rw [List.getLast?_append_of_ne_nil _ (by simp)]
        simp [circleArcLine]
      · rename_i hlt
        have hinv := circleFold_lastInv T p (getTranslation p) (p.diameter / 2 + off) f z
          (sortTabsBy (fun tb => tb.angle) p.tabs) (0, ([] : List Line))
          (fun _ => rfl) (by intro a ha; cases ha)
        rw [List.append_nil]
        intro hsome
        have hne : ((sortTabsBy (fun tb => tb.angle) p.tabs).foldl
            (circleTabStep T p (getTranslation p) (p.diameter / 2 + off) f z)
            (0, ([] : List Line))).2 ≠ [] := by
          intro hnil
          rw [hnil] at hsome
          cases hsome
        exact hinv.2 _ hsome w rfl

theorem getLast?_append_ne {α : Type} (l1 l2 : List α) (y : α)
    (h2 : l2.getLast? ≠ some y) (h1 : l2 = [] → l1.getLast? ≠ some y) :
    (l1 ++ l2).getLast? ≠ some y := by
  rw [List.getLast?_append]
  cases hl2 : l2.getLast? with
  | none => simpa [Option.or] using h1 (List.getLast?_eq_none_iff.mp hl2)
  | some x =>
    rw [hl2] at h2
    simpa [Option.or] using h2

theorem getLast?_cons_ne {α : Type} (a : α) (l : List α) (y : α)
    (h2 : l.getLast? ≠ some y) (h1 : a ≠ y) : (a :: l).getLast? ≠ some y := by
  rw [show a :: l = [a] ++ l from rfl]
  refine getLast?_append_ne [a] l y h2 ?_
  intro _
  simp [h1]

theorem passLines_retract_iff (T : TrigFns) (p : Params) (z off : ℚ) (isFin : Bool)
    (idx : ℕ) (hrapid : p.enableRapid = false) :
    ((passLines T p z off isFin idx).getLast? = some (getRapidZLine p p.safeZ)) ↔
      (isFin = false ∨ p.enableRamp = true) := by
  by_cases hc : (!isFin || p.enableRamp) = true
  · refine iff_of_true ?_ ?_
    · dsimp only [passLines]
      rw [if_pos hc]
      exact List.getLast?_concat _
    · rcases Bool.or_eq_true_iff.mp hc with h | h
      · exact Or.inl (by simpa using h)
      · exact Or.inr h
  · have hfin : isFin = true := by
      rcases isFin with _ | _
      · simp at hc
      · rfl
    have hramp : p.enableRamp = false := by
      rcases hr : p.enableRamp with _ | _
      · rfl
      · rw [hfin, hr] at hc
        simp at hc
    refine iff_of_false ?_ ?_
    · dsimp only [passLines]
      rw [hfin, hramp]
      simp only [Bool.not_true, Bool.or_false, Bool.false_eq_true, if_false, if_true,
        List.append_nil]
      have hret : getRapidZLine p p.safeZ = Line.g0Z p.safeZ := by
        simp [getRapidZLine, hrapid]
      rw [hret]
      apply getLast?_append_ne
      · -- the lead-out moves never contain a bare G0 Z line
        cases hlo : getLeadOut T p.shape (getStartPosition p p.shape off) off p with
        | none => simp
        | some mv =>
          intro hsome
          have hmem := List.mem_of_mem_getLast? hsome
          exact getLeadOut_no_g0Z T p.shape (getStartPosition p p.shape off) off p hlo
            _ hmem p.safeZ rfl
      · intro _
        apply getLast?_append_ne
        · -- plunge, lead-in moves, then the cut path
          apply getLast?_cons_ne
          · apply getLast?_append_ne
            · exact shapePath_getLast_not_g0Z T p p.shape off p.feedRate z p.safeZ
            · intro _
              cases hli : getLeadIn T p.shape (getStartPosition p p.shape off) off p with
              | none => simp
              | some li =>
                intro hsome
                have hmem := List.mem_of_mem_getLast? hsome
                exact getLeadIn_no_g0Z T p.shape (getStartPosition p p.shape off) off p hli
                  _ hmem p.safeZ rfl
          · simp [plungeLine]
        · intro hemp
          exact absurd hemp (by simp)
    · rw [hfin, hramp]
      simp

theorem zSeq_none_of_nonpos (pd td : ℚ) (hpd : pd ≤ 0) :
    ∀ (n : ℕ) (cur : ℚ), -td < cur → zSeq n pd td cur = none
  | 0, cur, h => by simp [zSeq, h]
  | n + 1, cur, h => by
    have hnext : -td < cur - pd := lt_of_lt_of_le h (by linarith)
    have hz : ¬(cur - pd < -td) := not_lt.mpr (le_of_lt hnext)
    simp only [zSeq, if_pos h, hz, if_false]
    rw [zSeq_none_of_nonpos pd td hpd n (cur - pd) hnext]
    rfl

theorem zSeq_some_of_le (pd td : ℚ) (hpd : 0 < pd) :
    ∀ (n : ℕ) (cur : ℚ), cur ≤ -td + n * pd → (zSeq n pd td cur).isSome
  | 0, cur, h => by
    have : ¬(-td < cur) := not_lt.mpr (by simpa using h)
    simp [zSeq, this]
  | n + 1, cur, h => by
    by_cases hcur : -td < cur
    · simp only [zSeq, if_pos hcur]
      by_cases hcl : cur - pd < -td
      · rw [if_pos hcl]
        have hnn : (0 : ℚ) ≤ (n : ℚ) := Nat.cast_nonneg n
        have : (zSeq n pd td (-td)).isSome :=
          zSeq_some_of_le pd td hpd n (-td)
            (by nlinarith [mul_nonneg hnn hpd.le])
        simpa using this
      · rw [if_neg hcl]
        have : (zSeq n pd td (cur - pd)).isSome :=
          zSeq_some_of_le pd td hpd n (cur - pd) (by push_cast at h ⊢; linarith)
        simpa using this
    · simp [zSeq, hcur]

theorem zSeq_nil_of_not_lt (pd td cur : ℚ) (h : ¬(-td < cur)) :
    ∀ n : ℕ, zSeq n pd td cur = some []
  | 0 => by simp [zSeq, h]
  | n + 1 => by simp [zSeq, h]

theorem passZs_isSome_iff (pd td : ℚ) :
    (passZs pd td).isSome ↔ (0 < pd ∨ td ≤ 0) := by
  constructor
  · intro h
    by_contra hcon
    push_neg at hcon
    obtain ⟨hpd, htd⟩ := hcon
    rw [passZs, zSeq_none_of_nonpos pd td hpd (zFuel pd td) 0
      (by simpa using htd)] at h
    cases h
  · intro h
    rcases h with hpd | htd
    · rw [passZs, zFuel, if_pos hpd]
      apply zSeq_some_of_le pd td hpd
      have h1 : (td / pd : ℚ) ≤ ((⌈td / pd⌉ : ℤ) : ℚ) := Int.le_ceil _
      have h2 : ((⌈td / pd⌉ : ℤ) : ℚ) ≤ ((⌈td / pd⌉.toNat : ℕ) : ℚ) := by
        exact_mod_cast Int.self_le_toNat _
      have h3 : td ≤ ((⌈td / pd⌉.toNat : ℕ) : ℚ) * pd := by
        have := (div_le_iff₀ hpd).mp (le_trans h1 h2)
        linarith
      push_cast
      linarith
    · rw [passZs, zSeq_nil_of_not_lt pd td 0 (by simpa using htd)]
      rfl

theorem generate_isSome_iff (T : TrigFns) (p : Params) (h : p.opType ≠ OpType.facing) :
    (generate T p).isSome ↔
      (0 < p.passDepth ∨ p.targetDepth ≤ 0 ∨ p.opType = OpType.text) := by
  cases hop : p.opType with
  | facing => exact absurd hop h
  | text => simp [generate, hop]
  | contour =>
    simp [generate, hop, passZs_isSome_iff]

theorem zSeq_chain (pd td : ℚ) (hpd : 0 < pd) :
    ∀ (n : ℕ) (cur : ℚ) (l : List ℚ), zSeq n pd td cur = some l → -td < cur →
      l ≠ [] ∧ l.head? = some (max (-td) (cur - pd)) ∧
      List.Chain' (fun a b => b = max (-td) (a - pd)) l ∧
      l.getLast? = some (-td) ∧ (∀ x ∈ l.dropLast, -td < x)
  | 0, cur, l, h, hcur => by simp [zSeq, hcur] at h
  | n + 1, cur, l, h, hcur => by
    simp only [zSeq, if_pos hcur] at h
    obtain ⟨l', hl', rfl⟩ : ∃ l',
        zSeq n pd td (if cur - pd < -td then -td else cur - pd) = some l' ∧
          l = (if cur - pd < -td then -td else cur - pd) :: l' := by
      cases hz : zSeq n pd td (if cur - pd < -td then -td else cur - pd) with
      | none => rw [hz] at h; cases h
      | some l' =>
        rw [hz] at h
        exact ⟨l', rfl, (Option.some_injective _ h).symm⟩
    have hzmax : (if cur - pd < -td then -td else cur - pd) = max (-td) (cur - pd) := by
      split
      · rename_i hx
        exact (max_eq_left (le_of_lt hx)).symm
      · rename_i hx
        exact (max_eq_right (not_lt.mp hx)).symm
    have hzge : -td ≤ (if cur - pd < -td then -td else cur - pd) := by
      rw [hzmax]
      exact le_max_left _ _
    by_cases hzlt : -td < (if cur - pd < -td then -td else cur - pd)
    · obtain ⟨hne, hhead, hchain, hlast, hdrop⟩ := zSeq_chain pd td hpd n _ l' hl' hzlt
      refine ⟨by simp, by simp [hzmax], ?_, ?_, ?_⟩
      · rw [List.chain'_cons']
        refine ⟨fun y hy => ?_, hchain⟩
        rw [hhead] at hy
        simp only [Option.mem_def, Option.some_inj] at hy
        exact hy.symm
      · rw [show ((if cur - pd < -td then -td else cur - pd) :: l') =
          [if cur - pd < -td then -td else cur - pd] ++ l' from rfl,
          List.getLast?_append_of_ne_nil _ hne]
        exact hlast
      · rw [List.dropLast_cons_of_ne_nil hne]
        intro x hx
        rcases List.mem_cons.mp hx with rfl | hx'
        · exact hzlt
        · exact hdrop x hx'
    · have hz_eq : (if cur - pd < -td then -td else cur - pd) = -td :=
        le_antisymm (not_lt.mp hzlt) hzge
      have hnil : l' = [] := by
        rw [zSeq_nil_of_not_lt pd td _ hzlt n] at hl'
        exact (Option.some_injective _ hl').symm
      subst hnil
      exact ⟨by simp, by simp [hzmax], by simp, by simp [hz_eq], by simp⟩

theorem roughDescend_cast : ∀ (n fuel : ℕ), n ≤ fuel →
    roughDescend fuel (n : ℚ) = (List.range n).map (fun k => ((n - k : ℕ) : ℚ))
  | 0, fuel, _ => by
    cases fuel <;> simp [roughDescend]
  | n + 1, fuel, hle => by
    obtain ⟨f, rfl⟩ : ∃ f, fuel = f + 1 := by
      cases fuel
      · omega
      · exact ⟨_, rfl⟩
    have hnn : (0 : ℚ) ≤ (n : ℚ) := Nat.cast_nonneg n
    have h1 : (1 : ℚ) ≤ ((n + 1 : ℕ) : ℚ) := by
      push_cast
      linarith
    have hsub : ((n + 1 : ℕ) : ℚ) - 1 = (n : ℚ) := by push_cast; ring
    rw [roughDescend, if_pos h1, hsub, roughDescend_cast n f (by omega)]
    rw [List.range_succ_eq_map]
    simp only [List.map_cons, List.map_map, Nat.sub_zero]
    congr 1
    apply List.map_congr_left
    intro k _
    simp only [Function.comp_apply]
    congr 1
    omega

theorem passOffsets_roughing (p : Params) (off : ℚ) (n : ℕ)
    (hen : p.enableRoughing = true) (hrp : p.roughingPasses = (n : ℚ)) (hn : 0 < n)
    (hstep : 0 < p.roughingStepover) (hop : p.operation ≠ Operation.center) :
    passOffsets p off =
      ((List.range n).map
        (fun k => off + ((n - k : ℕ) : ℚ) * p.roughingStepover * dirMult p)) ++ [off] := by
  have hd : dirMult p ≠ 0 := by
    cases ho : p.operation with
    | outside => simp [dirMult, ho]
    | inside => simp [dirMult, ho]
    | center => exact absurd ho hop
  have hrp' : (0 : ℚ) < p.roughingPasses := by
    rw [hrp]
    exact_mod_cast hn
  have hceil : (⌈p.roughingPasses⌉).toNat = n := by
    rw [hrp]
    simp
  rw [passOffsets, if_pos ⟨hen, hrp', hstep⟩, if_pos hd, hceil, hrp,
    roughDescend_cast n n le_rfl, List.map_map]
  rfl

theorem passOffsets_simple (p : Params) (off : ℚ)
    (h : ¬(p.enableRoughing = true ∧ 0 < p.roughingPasses ∧ 0 < p.roughingStepover) ∨
      p.operation = Operation.center) :
    passOffsets p off = [off] := by
  rcases h with h | h
  · rw [passOffsets, if_neg h]
    rfl
  · have hd : dirMult p = 0 := by simp [dirMult, h]
    rw [passOffsets]
    split
    · rw [if_neg (by simpa using hd)]
      rfl
    · rfl

theorem leadInTangent_leadType (T : TrigFns) (p : Params) (lt : LeadType) (shape : Shape) :
    leadInTangent T { p with leadType := lt } shape = leadInTangent T p shape := by
  cases shape <;> rfl

theorem leadOutTangent_leadType (T : TrigFns) (p : Params) (lt : LeadType) (shape : Shape) :
    leadOutTangent T { p with leadType := lt } shape = leadOutTangent T p shape := by
  cases shape <;> rfl

theorem leadIn_radius_eq_linear (T : TrigFns) (shape : Shape) (sp : Pt) (off : ℚ)
    (p : Params) (h : shape ≠ Shape.circle) :
    getLeadIn T shape sp off { p with leadType := .radius } =
      getLeadIn T shape sp off { p with leadType := .linear } := by
  simp [getLeadIn, h, leadInTangent_leadType]

theorem leadOut_radius_eq_linear (T : TrigFns) (shape : Shape) (sp : Pt) (off : ℚ)
    (p : Params) (h : shape ≠ Shape.circle) :
    getLeadOut T shape sp off { p with leadType := .radius } =
      getLeadOut T shape sp off { p with leadType := .linear } := by
  simp [getLeadOut, h, leadOutTangent_leadType]

theorem getLeadIn_radius_noncircle (T : TrigFns) (shape : Shape) (sp : Pt) (off : ℚ)
    (p : Params) (h : shape ≠ Shape.circle) (hlt : p.leadType = .radius)
    (hlen : p.leadInLen ≠ 0) :
    getLeadIn T shape sp off p =
      some ⟨⟨sp.x - (leadInTangent T p shape).1.x * p.leadInLen,
             sp.y - (leadInTangent T p shape).1.y * p.leadInLen⟩,
            [.g1XYF sp.x sp.y p.feedRate]⟩ := by
  simp [getLeadIn, h, hlt, hlen]

theorem getLeadOut_radius_noncircle (T : TrigFns) (shape : Shape) (sp : Pt) (off : ℚ)
    (p : Params) (h : shape ≠ Shape.circle) (hlt : p.leadType = .radius)
    (hlen : p.leadOutLen ≠ 0) :
    getLeadOut T shape sp off p =
      some [.g1XYF (sp.x + (leadOutTangent T p shape).1.x * p.leadOutLen)
              (sp.y + (leadOutTangent T p shape).1.y * p.leadOutLen) p.feedRate] := by
  simp [getLeadOut, h, hlt, hlen]

theorem getShapePathSt_eq (T : TrigFns) (p : Params) (shape : Shape)
    (off f z : ℚ) (rd : Option RampData) :
    getShapePathSt T p shape off f z rd = (p, getShapePath T p shape off f z rd) := by
  cases rd with
  | some rdv => rfl
  | none =>
    cases shape with
    | sketch =>
      rcases hsp : p.sketchPoints with _ | ⟨q0, _ | ⟨q1, rest⟩⟩ <;>
        simp [getShapePathSt, getShapePath, hsp]
    | circle =>
      dsimp only [getShapePathSt, getShapePath]
      split <;> rfl
    | square => rfl
    | rectangle => rfl
    | text => rfl

/-! ### Claim theorems -/

/-- C7: for every Parameter Record the signed path offset computed from
`operation` and `toolDiameter` is `+toolDiameter/2` for outside,
`-toolDiameter/2` for inside, and `0` for center. -/
theorem c7_offset_calculator (p : Params) :
    offsetFor { p with operation := .outside } = p.toolDiameter / 2 ∧
    offsetFor { p with operation := .inside } = -p.toolDiameter / 2 ∧
    offsetFor { p with operation := .center } = 0 :=
  ⟨rfl, rfl, rfl⟩

/-- C8: generation is deterministic — two calls of `generate` on the same
Parameter Record (and the same math primitives) produce identical output. -/
theorem c8_deterministic (T : TrigFns) (p : Params) : generate T p = generate T p := rfl

/-- C10: `getShapePath` never mutates the Parameter Record: the
state-instrumented variant, which would expose a write to any field of the
record (including the contents and element order of `tabs` and
`sketchPoints`), returns the record unchanged alongside the pure result. -/
theorem c10_no_mutation (T : TrigFns) (p : Params) (shape : Shape)
    (off f z : ℚ) (rd : Option RampData) :
    getShapePathSt T p shape off f z rd = (p, getShapePath T p shape off f z rd) :=
  getShapePathSt_eq T p shape off f z rd

/-- C2 (amended): tab treatment is applied on a pass only when that pass's
Z is strictly BELOW `-(targetDepth - tabThickness) - 0.001`; on any pass at
or above that threshold the cut path contains no Z-setting line at all, so
it receives no tab lifting. -/
theorem c2_tab_band_threshold (T : TrigFns) (p : Params) (shape : Shape) (off f z : ℚ)
    (h : tabTopZ p - 1 / 1000 ≤ z) :
    ∀ l ∈ getShapePath T p shape off f z none, isZSet l = false :=
  shapePath_no_zset T p shape off f z h

/-- C2 counterexample: with `targetDepth = 10`, `tabThickness = 2` the pass
at `Z = -9` lies below the preserved band's top (`-8`), yet the emitted
path DOES lift to `-8` over the tab span — refuting the claim that tab
treatment applies only to passes strictly above the band and that passes at
or below it receive no lifting. -/
theorem c2_counterexample :
    ((-9 : ℚ) < tabTopZ pTabs) ∧
    passZs pTabs.passDepth pTabs.targetDepth = some [-3, -6, -9, -10] ∧
    liftLine pTabs ∈
      getShapePath trigW pTabs Shape.square (offsetFor pTabs) pTabs.feedRate (-9) none ∧
    liftLine pTabs = Line.g0Z (tabTopZ pTabs) := by
  refine ⟨by norm_num [tabTopZ, pTabs, pBase], ?_, ?_, rfl⟩
  · show passZs 3 10 = _
    rw [passZs, zFuel, if_pos (by norm_num : (0:ℚ) < 3),
      show ⌈(10:ℚ)/3⌉ = 4 by rw [Int.ceil_eq_iff]; norm_num]
    norm_num [zSeq]
  · obtain ⟨pre, post, hsplit⟩ := rect_tab_chunk trigW pTabs Shape.square (offsetFor pTabs)
      pTabs.feedRate (-9) (by norm_num [tabTopZ, pTabs, pBase]) rfl
      ⟨.bottom, 50, 0⟩ (by decide)
      ⟨.bottom, ⟨-25, -25⟩, ⟨25, -25⟩, 50⟩
      (by norm_num [rectSides, pTabs, pBase, offsetFor]) rfl (Or.inl rfl)
    rw [hsplit]
    have hblock : liftLine pTabs ∈ rectTabBlock pTabs (getTranslation pTabs)
        pTabs.feedRate (-9) ⟨.bottom, ⟨-25, -25⟩, ⟨25, -25⟩, 50⟩ ⟨.bottom, 50, 0⟩ := by
      dsimp only [rectTabBlock]
      rw [if_pos (by norm_num [pTabs, pBase])]
      simp
    simp only [List.mem_append]
    exact Or.inl (Or.inr hblock)

/-- C2 witness: at the shallow pass `Z = -3` of the same record no line of
the cut path sets Z. -/
theorem c2_tab_band_threshold_witness :
    (getShapePath trigW pTabs Shape.square (offsetFor pTabs) pTabs.feedRate (-3) none).all
      (fun l => !isZSet l) = true := by
  rw [List.all_eq_true]
  intro l hl
  simpa using c2_tab_band_threshold trigW pTabs Shape.square (offsetFor pTabs)
    pTabs.feedRate (-3) (by norm_num [tabTopZ, pTabs, pBase]) l hl

/-- C4 (amended): for non-facing records, `generate` returns a finite
listing exactly when the depth-pass loop terminates: when `passDepth > 0`,
or `targetDepth ≤ 0`, or the record is a text operation.  In particular for
`passDepth = 0` with `targetDepth > 0` the source's `while` loop never
terminates, rather than returning degenerate but valid output. -/
theorem c4_generate_termination (T : TrigFns) (p : Params) (h : p.opType ≠ OpType.facing) :
    (generate T p).isSome ↔
      (0 < p.passDepth ∨ p.targetDepth ≤ 0 ∨ p.opType = OpType.text) :=
  generate_isSome_iff T p h

/-- C4 counterexample: a contour record with `passDepth = 0` and
`targetDepth = 5 > 0` makes the depth-pass loop run forever, so the
embedded `generate` yields no output at all. -/
theorem c4_counterexample : generate trigW pC4 = none := by
  have hz : passZs 0 5 = none := by
    rw [passZs, zFuel, if_neg (by norm_num : ¬(0:ℚ) < 0)]
    norm_num [zSeq]
  simp [generate, hz, pC4, pBase]

/-- C4 witness: the base contour record (`passDepth = 5 > 0`) generates
output. -/
theorem c4_generate_termination_witness :
    (generate trigW pBase).isSome ↔
      (0 < pBase.passDepth ∨ pBase.targetDepth ≤ 0 ∨ pBase.opType = OpType.text) :=
  c4_generate_termination trigW pBase (by decide)

/-- C5: for positive target and pass depths the pass-Z sequence starts from
0 (first entry `max (-targetDepth) (-passDepth)`), each entry steps down by
`passDepth` clamped at `-targetDepth`, the final entry is exactly
`-targetDepth`, every earlier entry is strictly above it (the loop stops
once `-targetDepth` is emitted), a single pass `[-targetDepth]` results
when `passDepth ≥ targetDepth`; and for `targetDepth = 10`,
`passDepth = 3` the sequence is exactly `[-3, -6, -9, -10]`. -/
theorem c5_pass_z_sequence :
    (∀ pd td : ℚ, 0 < pd → 0 < td →
      ∃ l, passZs pd td = some l ∧ l ≠ [] ∧
        l.head? = some (max (-td) (-pd)) ∧
        List.Chain' (fun a b => b = max (-td) (a - pd)) l ∧
        l.getLast? = some (-td) ∧ (∀ x ∈ l.dropLast, -td < x) ∧
        (td ≤ pd → l = [-td])) ∧
    passZs 3 10 = some [-3, -6, -9, -10] := by
  constructor
  · intro pd td hpd htd
    have hsome : (passZs pd td).isSome := (passZs_isSome_iff pd td).mpr (Or.inl hpd)
    obtain ⟨l, hl⟩ := Option.isSome_iff_exists.mp hsome
    have hcur : -td < 0 := by linarith
    obtain ⟨hne, hhead, hchain, hlast, hdrop⟩ := zSeq_chain pd td hpd (zFuel pd td) 0 l hl hcur
    rw [zero_sub] at hhead
    refine ⟨l, hl, hne, hhead, hchain, hlast, hdrop, ?_⟩
    intro hle
    rcases l with _ | ⟨a, rest⟩
    · exact absurd rfl hne
    · have ha : a = max (-td) (-pd) := by simpa using hhead
      have hmax : max (-td) (-pd) = -td := max_eq_left (by linarith)
      cases rest with
      | nil => simp [ha, hmax]
      | cons b rbs =>
        have hmem : a ∈ (a :: b :: rbs).dropLast := by
          rw [List.dropLast_cons_of_ne_nil (List.cons_ne_nil b rbs)]
          exact List.mem_cons_self a _
        have := hdrop a hmem
        rw [ha, hmax] at this
        exact absurd this (lt_irrefl _)
  · rw [passZs, zFuel, if_pos (by norm_num : (0:ℚ) < 3),
      show ⌈(10:ℚ)/3⌉ = 4 by rw [Int.ceil_eq_iff]; norm_num]
    norm_num [zSeq]

/-- C5 witness: the characterization instantiated at `passDepth = 3`,
`targetDepth = 10`. -/
theorem c5_pass_z_sequence_witness :
    ∃ l, passZs 3 10 = some l ∧ l ≠ [] ∧
      l.head? = some (max (-(10 : ℚ)) (-3)) ∧
      List.Chain' (fun a b => b = max (-(10 : ℚ)) (a - 3)) l ∧
      l.getLast? = some (-(10 : ℚ)) ∧ (∀ x ∈ l.dropLast, -(10 : ℚ) < x) ∧
      ((10 : ℚ) ≤ 3 → l = [-(10 : ℚ)]) :=
  c5_pass_z_sequence.1 3 10 (by norm_num) (by norm_num)

/-- C6: with roughing enabled, an integral positive `roughingPasses`,
positive stepover, and a non-center operation, the per-depth offset list is
`finishOffset + i * roughingStepover * dirMult` for `i` counting down from
`roughingPasses` to 1, followed by the finish offset as the last element;
in all other cases (including center) it is exactly `[finishOffset]`; and
the spec's example (outside, tool 6, 2 passes, step 1) gives `[5, 4, 3]`. -/
theorem c6_roughing_offsets :
    (∀ (p : Params) (off : ℚ) (n : ℕ), p.enableRoughing = true →
      p.roughingPasses = (n : ℚ) → 0 < n → 0 < p.roughingStepover →
      p.operation ≠ Operation.center →
      passOffsets p off =
        ((List.range n).map
          (fun k => off + ((n - k : ℕ) : ℚ) * p.roughingStepover * dirMult p)) ++ [off]) ∧
    (∀ (p : Params) (off : ℚ),
      (¬(p.enableRoughing = true ∧ 0 < p.roughingPasses ∧ 0 < p.roughingStepover) ∨
        p.operation = Operation.center) →
      passOffsets p off = [off]) ∧
    passOffsets pC6 (offsetFor pC6) = [5, 4, 3] := by
  refine ⟨passOffsets_roughing, passOffsets_simple, ?_⟩
  rw [passOffsets_roughing pC6 (offsetFor pC6) 2 rfl (by norm_num [pC6, pBase])
    (by norm_num) (by norm_num [pC6, pBase]) (by decide)]
  norm_num [offsetFor, dirMult, pC6, pBase, List.range_succ]

/-- C6 witness: the roughing branch instantiated at the spec's example. -/
theorem c6_roughing_offsets_witness :
    passOffsets pC6 (offsetFor pC6) =
      ((List.range 2).map
        (fun k => offsetFor pC6 + ((2 - k : ℕ) : ℚ) * pC6.roughingStepover * dirMult pC6))
        ++ [offsetFor pC6] :=
  c6_roughing_offsets.1 pC6 (offsetFor pC6) 2 rfl (by norm_num [pC6, pBase])
    (by norm_num) (by norm_num [pC6, pBase]) (by decide)

/-- C9: for every shape other than circle, `leadType = radius` silently
falls back to linear leads: the lead objects are identical to the linear
ones; the lead-in starts at `shapeStart - tangent * leadInLen` and emits a
single linear move to the shape start, and the lead-out is a single linear
move to `shapeStart + tangent * leadOutLen`. -/
theorem c9_radius_lead_fallback (T : TrigFns) (shape : Shape) (sp : Pt) (off : ℚ)
    (p : Params) (h : shape ≠ Shape.circle) :
    (getLeadIn T shape sp off { p with leadType := .radius } =
      getLeadIn T shape sp off { p with leadType := .linear }) ∧
    (getLeadOut T shape sp off { p with leadType := .radius } =
      getLeadOut T shape sp off { p with leadType := .linear }) ∧
    (p.leadInLen ≠ 0 →
      getLeadIn T shape sp off { p with leadType := .radius } =
        some ⟨⟨sp.x - (leadInTangent T p shape).1.x * p.leadInLen,
               sp.y - (leadInTangent T p shape).1.y * p.leadInLen⟩,
              [.g1XYF sp.x sp.y p.feedRate]⟩) ∧
    (p.leadOutLen ≠ 0 →
      getLeadOut T shape sp off { p with leadType := .radius } =
        some [.g1XYF (sp.x + (leadOutTangent T p shape).1.x * p.leadOutLen)
                (sp.y + (leadOutTangent T p shape).1.y * p.leadOutLen) p.feedRate]) := by
  refine ⟨leadIn_radius_eq_linear T shape sp off p h,
    leadOut_radius_eq_linear T shape sp off p h, ?_, ?_⟩
  · intro hlen
    rw [getLeadIn_radius_noncircle T shape sp off { p with leadType := .radius } h rfl hlen,
      leadInTangent_leadType]
  · intro hlen
    rw [getLeadOut_radius_noncircle T shape sp off { p with leadType := .radius } h rfl hlen,
      leadOutTangent_leadType]

/-- C9 witness: the fallback instantiated for a square with lead lengths
5 and 4. -/
theorem c9_radius_lead_fallback_witness :
    (getLeadIn trigW .square ⟨0, 0⟩ 0 { pLead with leadType := .radius } =
      getLeadIn trigW .square ⟨0, 0⟩ 0 { pLead with leadType := .linear }) ∧
    (getLeadOut trigW .square ⟨0, 0⟩ 0 { pLead with leadType := .radius } =
      getLeadOut trigW .square ⟨0, 0⟩ 0 { pLead with leadType := .linear }) ∧
    (pLead.leadInLen ≠ 0 →
      getLeadIn trigW .square ⟨0, 0⟩ 0 { pLead with leadType := .radius } =
        some ⟨⟨(0 : ℚ) - (leadInTangent trigW pLead .square).1.x * pLead.leadInLen,
               (0 : ℚ) - (leadInTangent trigW pLead .square).1.y * pLead.leadInLen⟩,
              [.g1XYF 0 0 pLead.feedRate]⟩) ∧
    (pLead.leadOutLen ≠ 0 →
      getLeadOut trigW .square ⟨0, 0⟩ 0 { pLead with leadType := .radius } =
        some [.g1XYF ((0 : ℚ) + (leadOutTangent trigW pLead .square).1.x * pLead.leadOutLen)
                ((0 : ℚ) + (leadOutTangent trigW pLead .square).1.y * pLead.leadOutLen)
                pLead.feedRate]) :=
  c9_radius_lead_fallback trigW .square ⟨0, 0⟩ 0 pLead (by decide)

/-- C3 (amended): in a contour generation without rapid emulation, the
block emitted for one (Z, offset) pair ends with a retract to `safeZ` if
and only if the pass is a roughing (non-finish) pass or ramping is enabled
— so no finish pass of ANY depth retracts, not merely the deepest one. -/
theorem c3_retract_rule (T : TrigFns) (p : Params) (z off : ℚ) (isFin : Bool)
    (idx : ℕ) (hrapid : p.enableRapid = false) :
    ((passLines T p z off isFin idx).getLast? = some (getRapidZLine p p.safeZ)) ↔
      (isFin = false ∨ p.enableRamp = true) :=
  passLines_retract_iff T p z off isFin idx hrapid

/-- C3 counterexample: a contour generation with two depth passes (target
2, pass 1), no roughing and no ramping, has a single finish offset per
depth, and the entire block emitted for the first (non-deepest) pass
contains no retract to `safeZ` — contradicting the claim that a retract is
emitted between consecutive passes except after the final finish pass of
the deepest cut. -/
theorem c3_counterexample :
    passZs pC3.passDepth pC3.targetDepth = some [-1, -2] ∧
    passOffsets pC3 (offsetFor pC3) = [offsetFor pC3] ∧
    getRapidZLine pC3 pC3.safeZ ∉ passLines trigW pC3 (-1) (offsetFor pC3) true 0 := by
  refine ⟨?_, ?_, ?_⟩
  · show passZs 1 2 = _
    rw [passZs, zFuel, if_pos (by norm_num : (0:ℚ) < 1),
      show ⌈(2:ℚ)/1⌉ = 2 by rw [Int.ceil_eq_iff]; norm_num]
    norm_num [zSeq]
  · exact passOffsets_simple pC3 _ (Or.inl (by simp [pC3, pBase]))
  · have hval : passLines trigW pC3 (-1) (offsetFor pC3) true 0 =
        [Line.cFinish, Line.g0XY (-(53/2)) (-(53/2)), Line.g1ZF (-1) 250,
         Line.g1XYF (53/2) (-(53/2)) 500, Line.g1XYF (53/2) (53/2) 500,
         Line.g1XYF (-(53/2)) (53/2) 500, Line.g1XYF (-(53/2)) (-(53/2)) 500] := by
      norm_num [passLines, getStartPosition, getLeadIn, getLeadOut, getShapePath,
        rectSides, rectSideMoves, getRapidXYLine, getTranslation, plungeLine,
        tabTopZ, offsetFor, pC3, pBase]
    rw [hval]
    decide

/-- C3 witness: the retract rule instantiated at the finish pass of the
two-pass record. -/
theorem c3_retract_rule_witness :
    ((passLines trigW pC3 (-1) (offsetFor pC3) true 0).getLast? =
      some (getRapidZLine pC3 pC3.safeZ)) ↔
      (true = false ∨ pC3.enableRamp = true) :=
  c3_retract_rule trigW pC3 (-1) (offsetFor pC3) true 0 (by decide)

/-- C1 (amended): on any pass strictly above `tabTopZ` the cut path
contains no Z-setting line (tabs are cut at full depth, no lift); on any
pass strictly below `tabTopZ - 0.001` (the code's strict comparison — the
claim's `≤` fails at exact equality) the path consists of plain cut moves
interleaved with hop triples that lift to exactly `tabTopZ`, traverse once
at that height, and re-plunge to exactly the pass Z at half feed; for
rectangles every tab of the record assigned to a side with a non-degenerate
clamped span contributes its hop block to the path; and each such block is
exactly cut-to-span-start, lift, traverse-to-span-end, re-plunge. -/
theorem c1_tab_pass_geometry (T : TrigFns) (p : Params) (shape : Shape) (off f z : ℚ) :
    (tabTopZ p < z → ∀ l ∈ getShapePath T p shape off f z none, isZSet l = false) ∧
    (z < tabTopZ p - 1 / 1000 → p.enableTabs = true → p.tabs ≠ [] →
      TabHopPath p z f (getShapePath T p shape off f z none)) ∧
    (z < tabTopZ p - 1 / 1000 → p.enableTabs = true →
      ∀ tab ∈ p.tabs, ∀ side ∈ rectSides p shape off, tab.side = side.name →
        (shape = Shape.square ∨ shape = Shape.rectangle) →
        max 0 (side.len * (tab.offset / 100) - p.tabWidth / 2) <
          min side.len (side.len * (tab.offset / 100) + p.tabWidth / 2) →
        ∃ pre post, getShapePath T p shape off f z none =
          pre ++ rectTabBlock p (getTranslation p) f z side tab ++ post) ∧
    (∀ (t : Pt) (side : SideSpec) (tab : Tab),
      max 0 (side.len * (tab.offset / 100) - p.tabWidth / 2) <
        min side.len (side.len * (tab.offset / 100) + p.tabWidth / 2) →
      rectTabBlock p t f z side tab =
        [Line.g1XYF ((interpolate side.sStart side.sEnd
            (max 0 (side.len * (tab.offset / 100) - p.tabWidth / 2) / side.len)).x + t.x)
          ((interpolate side.sStart side.sEnd
            (max 0 (side.len * (tab.offset / 100) - p.tabWidth / 2) / side.len)).y + t.y) f,
         liftLine p,
         Line.g1XYF ((interpolate side.sStart side.sEnd
            (min side.len (side.len * (tab.offset / 100) + p.tabWidth / 2) / side.len)).x + t.x)
          ((interpolate side.sStart side.sEnd
            (min side.len (side.len * (tab.offset / 100) + p.tabWidth / 2) / side.len)).y + t.y) f,
         plungeLine p z]) := by
  refine ⟨?_, ?_, ?_, ?_⟩
  · intro h
    exact shapePath_no_zset T p shape off f z (by linarith)
  · intro _ _ _
    exact shapePath_tabHop T p shape off f z
  · intro hz hen tab htab side hside hname hshape hvalid
    exact rect_tab_chunk T p shape off f z hz hen tab htab side hside hname hshape
  · intro t side tab hvalid
    dsimp only [rectTabBlock]
    split
    · rfl
    · rename_i hcontra
      exact absurd hvalid hcontra

/-- C1 counterexample: with `targetDepth = 10`, `tabThickness = 2`,
`passDepth = 8.001` the first pass lands exactly on
`tabTopZ - 0.001 = -8.001`; the claim (passes with `Z ≤ tabTopZ - 0.001`
lift over each tab span) says this pass lifts, but the code's strict `<`
emits a path with no Z-setting line at all, while the strictly deeper
final pass at `-10` does lift over the same tab. -/
theorem c1_counterexample :
    passZs pC1.passDepth pC1.targetDepth = some [-(8001 / 1000), -10] ∧
    (-(8001 / 1000) : ℚ) = tabTopZ pC1 - 1 / 1000 ∧
    (∀ l ∈ getShapePath trigW pC1 Shape.square (offsetFor pC1) pC1.feedRate
        (-(8001 / 1000)) none, isZSet l = false) ∧
    liftLine pC1 ∈
      getShapePath trigW pC1 Shape.square (offsetFor pC1) pC1.feedRate (-10) none ∧
    liftLine pC1 = Line.g0Z (tabTopZ pC1) := by
  refine ⟨?_, by norm_num [tabTopZ, pC1, pTabs, pBase], ?_, ?_, rfl⟩
  · show passZs (8001 / 1000) 10 = _
    rw [passZs, zFuel, if_pos (by norm_num : (0:ℚ) < 8001 / 1000),
      show ⌈(10:ℚ)/(8001/1000)⌉ = 2 by rw [Int.ceil_eq_iff]; norm_num]
    norm_num [zSeq]
  · intro l hl
    exact shapePath_no_zset trigW pC1 Shape.square (offsetFor pC1) pC1.feedRate
      (-(8001 / 1000)) (by norm_num [tabTopZ, pC1, pTabs, pBase]) l hl
  · obtain ⟨pre, post, hsplit⟩ := rect_tab_chunk trigW pC1 Shape.square (offsetFor pC1)
      pC1.feedRate (-10) (by norm_num [tabTopZ, pC1, pTabs, pBase]) rfl
      ⟨.bottom, 50, 0⟩ (by decide)
      ⟨.bottom, ⟨-25, -25⟩, ⟨25, -25⟩, 50⟩
      (by norm_num [rectSides, pC1, pTabs, pBase, offsetFor]) rfl (Or.inl rfl)
    rw [hsplit]
    have hblock : liftLine pC1 ∈ rectTabBlock pC1 (getTranslation pC1)
        pC1.feedRate (-10) ⟨.bottom, ⟨-25, -25⟩, ⟨25, -25⟩, 50⟩ ⟨.bottom, 50, 0⟩ := by
      dsimp only [rectTabBlock]
      rw [if_pos (by norm_num [pC1, pTabs, pBase])]
      simp
    simp only [List.mem_append]
    exact Or.inl (Or.inr hblock)

/-- C1 witness: the deep-pass structure and the hop block of the bottom tab
at pass Z `-9` of the tabbed square. -/
theorem c1_tab_pass_geometry_witness :
    TabHopPath pTabs (-9) pTabs.feedRate
      (getShapePath trigW pTabs Shape.square (offsetFor pTabs) pTabs.feedRate (-9) none) ∧
    ∃ pre post,
      getShapePath trigW pTabs Shape.square (offsetFor pTabs) pTabs.feedRate (-9) none =
        pre ++ rectTabBlock pTabs (getTranslation pTabs) pTabs.feedRate (-9)
          ⟨.bottom, ⟨-25, -25⟩, ⟨25, -25⟩, 50⟩ ⟨.bottom, 50, 0⟩ ++ post :=
  ⟨(c1_tab_pass_geometry trigW pTabs Shape.square (offsetFor pTabs) pTabs.feedRate (-9)).2.1
      (by norm_num [tabTopZ, pTabs, pBase]) rfl (by decide),
    (c1_tab_pass_geometry trigW pTabs Shape.square (offsetFor pTabs) pTabs.feedRate (-9)).2.2.1
      (by norm_num [tabTopZ, pTabs, pBase]) rfl
      ⟨.bottom, 50, 0⟩ (by decide) ⟨.bottom, ⟨-25, -25⟩, ⟨25, -25⟩, 50⟩
      (by norm_num [rectSides, pTabs, pBase, offsetFor]) rfl (Or.inl rfl)
      (by norm_num [pTabs, pBase])⟩

end OpenGCodeGen



